import Mathlib

/-!
Verification of the congruum document-registry backends.

The repository ships two backend variants of the same document-manager API:

* a JSON-file PHP backend (`src/congruum-doc-manager.php`), modelled below in
  namespace `JsonApi`;
* a SQLite PHP backend (embedded in `src/src/lib/document-manager-api.ts`
  after the TS client), modelled below in namespace `SqliteApi`.

Randomness (`random_int` inside `generateRandomId`) is modelled by an explicit
oracle `pick : Nat → Fin 23` supplying the index drawn at each step.  PHP
truthiness of strings (`!$x` is true for null, "" and "0") is modelled by
`phpFalsyStr`.  The SQLite table constraints (PRIMARY KEY (document_id,
version), UNIQUE (room_id), FOREIGN KEY document_id) are modelled as explicit
checks whose violation aborts the operation with a rolled-back (unchanged)
state, exactly as the PDO exception path does in the source.
-/

/-- Shared safe alphabet, from the source string
"c d e f h j k m n p r t v w x y 2 3 4 5 6 8 9" used identically by
`generateRoomId` and `generate_id` in the JSON backend and by
`generateRandomId` in the SQLite backend. -/
def roomChars : List Char :=
  ['c', 'd', 'e', 'f', 'h', 'j', 'k', 'm', 'n', 'p', 'r', 't', 'v', 'w', 'x', 'y',
   '2', '3', '4', '5', '6', '8', '9']

/-- `generateRandomId($length)`: draw `length` characters from `roomChars`,
the oracle `pick` standing for the successive `random_int(0, 22)` results
(each index is below 23, the alphabet size, so the default is never used). -/
def generateRandomId (length : Nat) (pick : Nat → Fin 23) : String :=
  String.mk ((List.range length).map fun i => roomChars.getD (pick i).val 'c')

/-- PHP falsiness of an optional string parameter: `!$x` is true when the
parameter is absent, the empty string, or the string "0". -/
def phpFalsyStr : Option String → Bool
  | none => true
  | some s => s == "" || s == "0"

/-- Character class of the id regex `^[a-zA-Z0-9_\-\.]+$`. -/
def isIdChar (c : Char) : Bool :=
  ('a' ≤ c && c ≤ 'z') || ('A' ≤ c && c ≤ 'Z') || ('0' ≤ c && c ≤ '9') ||
    c == '_' || c == '-' || c == '.'

/-- `validateId`: the id matches `^[a-zA-Z0-9_\-\.]+$`. -/
def validateId (s : String) : Bool :=
  !s.isEmpty && s.data.all isIdChar

/-- Character class of the version regex `^[a-zA-Z0-9\.]+$`. -/
def isVersionChar (c : Char) : Bool :=
  ('a' ≤ c && c ≤ 'z') || ('A' ≤ c && c ≤ 'Z') || ('0' ≤ c && c ≤ '9') || c == '.'

/-- `validateVersion`: the version matches `^[a-zA-Z0-9\.]+$`. -/
def validateVersion (s : String) : Bool :=
  !s.isEmpty && s.data.all isVersionChar

/-- Accumulator loop of `explodeComma`. -/
def splitCommaAux : List Char → List Char → List String
  | [], acc => [String.mk acc.reverse]
  | c :: cs, acc =>
    if c = ',' then String.mk acc.reverse :: splitCommaAux cs []
    else splitCommaAux cs (c :: acc)

/-- PHP `explode(',', $s)`: split on every comma; an empty input yields
the one-element list [""]. -/
def explodeComma (s : String) : List String :=
  splitCommaAux s.data []

namespace SqliteApi

/-- A row of the `documents` table. -/
structure DocRow where
  id : String
  owner : String
  app : String
  title : String
  deleted : Bool
  createdAt : Nat
  updatedAt : Nat
deriving Repr, DecidableEq

/-- A row of the `document_versions` table. -/
structure VersionRow where
  documentId : String
  version : String
  roomId : String
  createdAt : Nat
deriving Repr, DecidableEq

/-- A row of the `document_shares` table. -/
structure ShareRow where
  documentId : String
  username : String
  canRead : Bool
  canWrite : Bool
deriving Repr, DecidableEq

/-- The SQLite store: the three tables, rows in insertion order. -/
structure State where
  documents : List DocRow
  versions : List VersionRow
  shares : List ShareRow
deriving Repr, DecidableEq

/-- The empty store (freshly initialized schema). -/
def State.init : State := ⟨[], [], []⟩

/-- Error outcomes of the SQLite backend, one constructor per distinct
`http_response_code` / message pair emitted by the source. -/
inductive ApiErr where
  | missingId
  | missingParameters
  | invalidIdFormat
  | invalidVersionFormat
  | conflict
  | notFound
  | accessDenied
  | renameDenied
  | writeDenied
  | notOwner
  | invalidPermission (p : String)
  | invalidLength
  | constraintViolation
deriving Repr, DecidableEq

/-- HTTP status code set by the source for each error outcome. -/
def statusOf : ApiErr → Nat
  | .missingId => 400
  | .missingParameters => 400
  | .invalidIdFormat => 400
  | .invalidVersionFormat => 400
  | .conflict => 409
  | .notFound => 404
  | .accessDenied => 403
  | .renameDenied => 404
  | .writeDenied => 403
  | .notOwner => 404
  | .invalidPermission _ => 400
  | .invalidLength => 400
  | .constraintViolation => 500

/-- JSON error message emitted by the source for each error outcome
(`constraintViolation` surfaces the PDO exception text, summarized here). -/
def messageOf : ApiErr → String
  | .missingId => "Missing id"
  | .missingParameters => "Missing parameters"
  | .invalidIdFormat => "Invalid ID format"
  | .invalidVersionFormat => "Invalid version format"
  | .conflict => "Document already exists"
  | .notFound => "Not found"
  | .accessDenied => "Access denied"
  | .renameDenied => "Access denied or not found"
  | .writeDenied => "Access denied or not found"
  | .notOwner => "Not found or not owner"
  | .invalidPermission p => "Invalid permission: " ++ p
  | .invalidLength => "Invalid length (1-128 allowed)"
  | .constraintViolation => "Database constraint violation"

/-- The caller-observable shape of a failure: HTTP status plus message. -/
def observe (e : ApiErr) : Nat × String := (statusOf e, messageOf e)

/-- First `documents` row with the given id, in any lifecycle state. -/
def findDoc (s : State) (docId : String) : Option DocRow :=
  s.documents.find? fun d => d.id == docId

/-- `SELECT owner FROM documents WHERE id = ? AND deleted = 0`. -/
def getOwnerLive (s : State) (docId : String) : Option String :=
  (s.documents.find? fun d => d.id == docId && !d.deleted).map DocRow.owner

/-- `SELECT room_id FROM document_versions WHERE document_id = ? AND version = ?`. -/
def lookupVersion (s : State) (docId version : String) : Option String :=
  (s.versions.find? fun v => v.documentId == docId && v.version == version).map
    VersionRow.roomId

/-- The share row for (document, username), if any. -/
def lookupShare (s : State) (docId user : String) : Option ShareRow :=
  s.shares.find? fun sh => sh.documentId == docId && sh.username == user

/-- `hasReadAccess`: admin, or the document exists non-deleted and the caller
is its owner or holds a share row with `can_read = 1`. -/
def hasReadAccess (s : State) (docId user : String) (admin : String → Bool) : Bool :=
  admin user ||
    s.documents.any fun d => d.id == docId && !d.deleted &&
      (d.owner == user ||
        s.shares.any fun sh => sh.documentId == docId && sh.username == user && sh.canRead)

/-- `hasWriteAccess`: admin, or the document exists non-deleted and the caller
is its owner or holds a share row with `can_write = 1`. -/
def hasWriteAccess (s : State) (docId user : String) (admin : String → Bool) : Bool :=
  admin user ||
    s.documents.any fun d => d.id == docId && !d.deleted &&
      (d.owner == user ||
        s.shares.any fun sh => sh.documentId == docId && sh.username == user && sh.canWrite)

/-- True when some version row already uses this room id
(the `UNIQUE (room_id)` table constraint). -/
def roomUsed (s : State) (room : String) : Bool :=
  s.versions.any fun v => v.roomId == room

/-- True when some version row already has this (document, version) key
(the `PRIMARY KEY (document_id, version)` table constraint). -/
def versionKeyUsed (s : State) (docId version : String) : Bool :=
  s.versions.any fun v => v.documentId == docId && v.version == version

/-- Permission strings derived from a share row, as built by `getDocumentFull`. -/
def permsOfShare (sh : ShareRow) : List String :=
  (if sh.canRead then ["read"] else []) ++ (if sh.canWrite then ["write"] else [])

/-- The response shape assembled by `getDocumentFull`: the document row with
its version map and share list. -/
structure FullDoc where
  doc : DocRow
  versions : List (String × String)
  sharedWith : List (String × List String)
deriving Repr, DecidableEq

/-- `getDocumentFull($db, $docId)`: the non-deleted document with its version
map and share list, or null. -/
def getDocumentFull (s : State) (docId : String) : Option FullDoc :=
  (s.documents.find? fun d => d.id == docId && !d.deleted).map fun d =>
    ⟨d,
     (s.versions.filter fun v => v.documentId == docId).map fun v => (v.version, v.roomId),
     (s.shares.filter fun sh => sh.documentId == docId).map fun sh =>
       (sh.username, permsOfShare sh)⟩

/-- Action `create` (POST): validate id/version, reject if the id exists in
any lifecycle state, else atomically insert the document row and its first
version row with a freshly generated 16-character room. -/
def create (s : State) (idp app title version : Option String) (user : String)
    (now : Nat) (pick : Nat → Fin 23) : Except ApiErr (Option FullDoc) × State :=
  if phpFalsyStr idp then (.error .missingId, s) else
  let docId := idp.getD ""
  if !validateId docId then (.error .invalidIdFormat, s) else
  let ver := version.getD "1"
  if !validateVersion ver then (.error .invalidVersionFormat, s) else
  let appv := app.getD ""
  let titlev := title.getD "Untitled"
  let roomId := generateRandomId 16 pick
  if s.documents.any (fun d => d.id == docId) then (.error .conflict, s) else
  if versionKeyUsed s docId ver || roomUsed s roomId then (.error .constraintViolation, s) else
  let s2 : State := ⟨s.documents ++ [⟨docId, user, appv, titlev, false, now, now⟩],
                     s.versions ++ [⟨docId, ver, roomId, now⟩], s.shares⟩
  (.ok (getDocumentFull s2 docId), s2)

/-- Action `rename` (POST): requires `hasWriteAccess`; updates title and
`updated_at` on every row with the id. -/
def rename (s : State) (idp title : Option String) (user : String)
    (admin : String → Bool) (now : Nat) : Except ApiErr (Option FullDoc) × State :=
  if phpFalsyStr idp || title.isNone then (.error .missingParameters, s) else
  let docId := idp.getD ""
  if !validateId docId then (.error .invalidIdFormat, s) else
  if !hasWriteAccess s docId user admin then (.error .renameDenied, s) else
  let s2 : State := { s with documents := s.documents.map fun d =>
    if d.id == docId then { d with title := title.getD "", updatedAt := now } else d }
  (.ok (getDocumentFull s2 docId), s2)

/-- The `INSERT ... ON CONFLICT(document_id, username) DO UPDATE` of `share`:
replace the existing row for the key, else append. -/
def upsertShare (l : List ShareRow) (row : ShareRow) : List ShareRow :=
  if l.any (fun sh => sh.documentId == row.documentId && sh.username == row.username) then
    l.map fun sh =>
      if sh.documentId == row.documentId && sh.username == row.username then row else sh
  else l ++ [row]

/-- Action `share` (POST): owner/admin only; validates each comma-separated
permission against read/write; upserts the grant row.  A missing document row
would violate the share table's FOREIGN KEY (admin caller on an absent id). -/
def share (s : State) (idp username perms : Option String) (user : String)
    (admin : String → Bool) : Except ApiErr (Option FullDoc) × State :=
  if phpFalsyStr idp || username.isNone || perms.isNone then (.error .missingParameters, s) else
  let docId := idp.getD ""
  if !validateId docId then (.error .invalidIdFormat, s) else
  if !(getOwnerLive s docId == some user || admin user) then (.error .notOwner, s) else
  let permsArr := explodeComma (perms.getD "")
  match permsArr.find? (fun p => !(p == "read" || p == "write")) with
  | some p => (.error (.invalidPermission p), s)
  | none =>
    if !(s.documents.any fun d => d.id == docId) then (.error .constraintViolation, s) else
    let row : ShareRow := ⟨docId, username.getD "", permsArr.contains "read",
                           permsArr.contains "write"⟩
    let s2 : State := { s with shares := upsertShare s.shares row }
    (.ok (getDocumentFull s2 docId), s2)

/-- Action `revoke` (POST): owner/admin only; deletes the grant row if
present (idempotent). -/
def revoke (s : State) (idp username : Option String) (user : String)
    (admin : String → Bool) : Except ApiErr (Option FullDoc) × State :=
  if phpFalsyStr idp || username.isNone then (.error .missingParameters, s) else
  let docId := idp.getD ""
  if !(getOwnerLive s docId == some user || admin user) then (.error .notOwner, s) else
  let s2 : State := { s with shares := s.shares.filter fun sh =>
    !(sh.documentId == docId && sh.username == username.getD "") }
  (.ok (getDocumentFull s2 docId), s2)

/-- Action `delete` (POST): owner/admin only; soft delete, setting
`deleted = 1` and bumping `updated_at`. -/
def delete (s : State) (idp : Option String) (user : String)
    (admin : String → Bool) (now : Nat) : Except ApiErr Unit × State :=
  if phpFalsyStr idp then (.error .missingId, s) else
  let docId := idp.getD ""
  if !(getOwnerLive s docId == some user || admin user) then (.error .notOwner, s) else
  let s2 : State := { s with documents := s.documents.map fun d =>
    if d.id == docId then { d with deleted := true, updatedAt := now } else d }
  (.ok (), s2)

/-- Response shape of action `access`. -/
structure AccessResp where
  id : String
  room : Option String
  user : String
  permissions : List String
deriving Repr, DecidableEq

/-- Action `access` (GET): version defaults to "1"; 404 if the document is
absent or soft-deleted, 403 if the caller is neither owner nor admin and has
no readable share; otherwise returns the (possibly null) room for the version
and the caller's effective permissions.  Never mutates the store. -/
def access (s : State) (idp versionp : Option String) (user : String)
    (admin : String → Bool) : Except ApiErr AccessResp × State :=
  if phpFalsyStr idp then (.error .missingId, s) else
  let docId := idp.getD ""
  if !validateId docId then (.error .invalidIdFormat, s) else
  let ver := versionp.getD "1"
  if !validateVersion ver then (.error .invalidVersionFormat, s) else
  match s.documents.find? (fun d => d.id == docId && !d.deleted) with
  | none => (.error .notFound, s)
  | some d =>
    let sh? := lookupShare s docId user
    let canRead := sh?.elim false ShareRow.canRead
    let canWrite := sh?.elim false ShareRow.canWrite
    let isOwner := d.owner == user
    let isAdm := admin user
    if !isOwner && !isAdm && !canRead then (.error .accessDenied, s) else
    let perms := if isOwner || isAdm then ["read", "write"]
      else (if canRead then ["read"] else []) ++ (if canWrite then ["write"] else [])
    (.ok ⟨docId, lookupVersion s docId ver, user, perms⟩, s)

/-- Response shape of action `create_version`. -/
structure RoomResp where
  id : String
  version : String
  room : String
deriving Repr, DecidableEq

/-- Action `create_version` (POST): requires `hasWriteAccess` (one merged
403 failure whether the document is absent or access is lacking); returns the
existing room for the version, or inserts a freshly generated one inside a
transaction.  A PHP-falsy stored room ("" or "0") fails `fetchColumn`'s
truthiness test and the retried insert hits the PRIMARY KEY, rolling back. -/
def createVersion (s : State) (idp versionp : Option String) (user : String)
    (admin : String → Bool) (now : Nat) (pick : Nat → Fin 23) :
    Except ApiErr RoomResp × State :=
  if phpFalsyStr idp || versionp.isNone then (.error .missingParameters, s) else
  let docId := idp.getD ""
  if !validateId docId then (.error .invalidIdFormat, s) else
  let ver := versionp.getD ""
  if !validateVersion ver then (.error .invalidVersionFormat, s) else
  if !hasWriteAccess s docId user admin then (.error .writeDenied, s) else
  match lookupVersion s docId ver with
  | some r =>
    if r == "" || r == "0" then (.error .constraintViolation, s)
    else (.ok ⟨docId, ver, r⟩, s)
  | none =>
    let room := generateRandomId 16 pick
    if roomUsed s room then (.error .constraintViolation, s)
    else (.ok ⟨docId, ver, room⟩, { s with versions := s.versions ++ [⟨docId, ver, room, now⟩] })

/-- Action `generate_id` (GET): `intval` of the length parameter, default 16,
rejected outside [1, 128]. -/
def generateId (lengthp : Option Int) (pick : Nat → Fin 23) : Except ApiErr String :=
  let length := lengthp.getD 16
  if length < 1 || length > 128 then .error .invalidLength
  else .ok (generateRandomId length.toNat pick)

/-- Modelled from the spec: the `restore` operation is absent from src/ (only
the UI's `api.restoreDocument` call exists); per the spec's operation table it
requires canManage (admin or owner) and sets `deleted = false`, failing with
the merged NotFoundOrDenied outcome otherwise, bumping `updatedAt` as every
mutation does. -/
def restore (s : State) (idp : Option String) (user : String)
    (admin : String → Bool) (now : Nat) : Except ApiErr Unit × State :=
  if phpFalsyStr idp then (.error .missingId, s) else
  let docId := idp.getD ""
  match findDoc s docId with
  | none => (.error .notOwner, s)
  | some d =>
    if !(d.owner == user || admin user) then (.error .notOwner, s) else
    (.ok (), { s with documents := s.documents.map fun d0 =>
      if d0.id == docId then { d0 with deleted := false, updatedAt := now } else d0 })

/-- Modelled from the spec: the `permanent_delete` operation is absent from
src/ (only the UI's `api.permanentDeleteDocument` call exists); per the
spec's operation table it requires canManage (admin or owner) and performs a
cascading purge of the document row, all its version rows and all its share
rows, failing with the merged NotFoundOrDenied outcome otherwise. -/
def permanentDelete (s : State) (idp : Option String) (user : String)
    (admin : String → Bool) : Except ApiErr Unit × State :=
  if phpFalsyStr idp then (.error .missingId, s) else
  let docId := idp.getD ""
  match findDoc s docId with
  | none => (.error .notOwner, s)
  | some d =>
    if !(d.owner == user || admin user) then (.error .notOwner, s) else
    (.ok (), ⟨s.documents.filter (fun d0 => !(d0.id == docId)),
              s.versions.filter (fun v => !(v.documentId == docId)),
              s.shares.filter (fun sh => !(sh.documentId == docId))⟩)

/-- PHP truthiness filter of the optional `app` parameter in `list`. -/
def appFilter (appP : Option String) (d : DocRow) : Bool :=
  match appP with
  | none => true
  | some a => if a == "" || a == "0" then true else d.app == a

/-- Actions `list` / `list_by_app` (GET): non-deleted documents owned by or
readably shared with the caller (all of them for an admin with `all=1`),
optionally filtered by app, each expanded by `getDocumentFull`. -/
def listDocs (s : State) (user : String) (admin : String → Bool)
    (allFlag : Bool) (appP : Option String) : List FullDoc :=
  let allMode := allFlag && admin user
  (s.documents.filter fun d => !d.deleted &&
      (allMode ||
        (d.owner == user ||
          s.shares.any fun sh => sh.documentId == d.id && sh.username == user && sh.canRead)) &&
      appFilter appP d).filterMap fun d => getDocumentFull s d.id

/-- Whether the default list view (`list`, no flags) shows the document. -/
def inDefaultList (s : State) (viewer : String) (admin : String → Bool)
    (docId : String) : Bool :=
  (listDocs s viewer admin false none).any fun fd => fd.doc.id == docId

/-- One mutating request against the SQLite backend, with its parameters and
randomness oracle. -/
inductive Op where
  | create (idp app title version : Option String) (user : String) (now : Nat)
      (pick : Nat → Fin 23)
  | rename (idp title : Option String) (user : String) (now : Nat)
  | share (idp username perms : Option String) (user : String)
  | revoke (idp username : Option String) (user : String)
  | delete (idp : Option String) (user : String) (now : Nat)
  | restore (idp : Option String) (user : String) (now : Nat)
  | permanentDelete (idp : Option String) (user : String)
  | createVersion (idp versionp : Option String) (user : String) (now : Nat)
      (pick : Nat → Fin 23)

/-- State transition of one request (the response is discarded). -/
def stepState (admin : String → Bool) : Op → State → State
  | .create idp app title version user now pick, s =>
      (create s idp app title version user now pick).2
  | .rename idp title user now, s => (rename s idp title user admin now).2
  | .share idp username perms user, s => (share s idp username perms user admin).2
  | .revoke idp username user, s => (revoke s idp username user admin).2
  | .delete idp user now, s => (delete s idp user admin now).2
  | .restore idp user now, s => (restore s idp user admin now).2
  | .permanentDelete idp user, s => (permanentDelete s idp user admin).2
  | .createVersion idp versionp user now pick, s =>
      (createVersion s idp versionp user admin now pick).2

/-- States reachable from the empty store by any request sequence, under any
admin predicate. -/
inductive Reachable : State → Prop
  | init : Reachable State.init
  | step (admin : String → Bool) (op : Op) (s : State) :
      Reachable s → Reachable (stepState admin op s)

/-- Whether the request is a `permanent_delete` aimed at this document id. -/
def isPermDeleteOf (op : Op) (docId : String) : Bool :=
  match op with
  | .permanentDelete idp _ => idp == some docId
  | _ => false

end SqliteApi

namespace JsonApi

/-- A shared_with entry of the JSON-file backend. -/
structure JShare where
  username : String
  permissions : List String
deriving Repr, DecidableEq

/-- A document object of the JSON-file backend; the store is the list of
these in file order. -/
structure JDoc where
  id : String
  owner : String
  tool : String
  title : String
  versions : List (String × String)
  sharedWith : List JShare
deriving Repr, DecidableEq

/-- Error outcomes (JSON messages) of the JSON-file backend. -/
inductive JErr where
  | missingId
  | missingParameters
  | alreadyExists
  | notFound
  | versionNotFound
  | accessDenied
  | notFoundOrDenied
  | notFoundOrNotOwner
  | invalidLength
deriving Repr, DecidableEq

/-- `getDocById`: first document with the id. -/
def getDocById (docs : List JDoc) (docId : String) : Option JDoc :=
  docs.find? fun d => d.id == docId

/-- `hasAccess($doc, $user)`: owner, admin, or any shared_with entry for the
user, regardless of its permissions. -/
def hasAccess (doc : JDoc) (user : String) (admin : String → Bool) : Bool :=
  doc.owner == user || admin user || doc.sharedWith.any fun sh => sh.username == user

/-- `getUserPermissions`: read+write for owner/admin, the first matching
share entry's permission list otherwise, else empty. -/
def getUserPermissions (doc : JDoc) (user : String) (admin : String → Bool) : List String :=
  if doc.owner == user || admin user then ["read", "write"]
  else match doc.sharedWith.find? (fun sh => sh.username == user) with
    | some sh => sh.permissions
    | none => []

/-- Replace the first list element satisfying the predicate (the PHP
by-reference `foreach` loops update one document and exit). -/
def replaceFirst (p : JDoc → Bool) (f : JDoc → JDoc) : List JDoc → List JDoc
  | [] => []
  | d :: ds => if p d then f d :: ds else d :: replaceFirst p f ds

/-- Action `create`: rejects an existing id, else appends a document whose
tool defaults to "", title to "Untitled", version to "1", with a freshly
generated 16-character room. -/
def create (docs : List JDoc) (idp tool title version : Option String)
    (user : String) (pick : Nat → Fin 23) : Except JErr JDoc × List JDoc :=
  if phpFalsyStr idp then (.error .missingId, docs) else
  let docId := idp.getD ""
  match getDocById docs docId with
  | some _ => (.error .alreadyExists, docs)
  | none =>
    let doc : JDoc := ⟨docId, user, tool.getD "", title.getD "Untitled",
                       [(version.getD "1", generateRandomId 16 pick)], []⟩
    (.ok doc, docs ++ [doc])

/-- Action `rename`: updates the first document with the id for which the
caller passes `hasAccess` (any share suffices) or is admin. -/
def rename (docs : List JDoc) (idp title : Option String) (user : String)
    (admin : String → Bool) : Except JErr JDoc × List JDoc :=
  if phpFalsyStr idp || title.isNone then (.error .missingParameters, docs) else
  let docId := idp.getD ""
  let p := fun d => d.id == docId && (hasAccess d user admin || admin user)
  match docs.find? p with
  | none => (.error .notFoundOrDenied, docs)
  | some d =>
    (.ok { d with title := title.getD "" },
     replaceFirst p (fun d0 => { d0 with title := title.getD "" }) docs)

/-- Response shape of action `access`. -/
structure JAccessResp where
  id : String
  room : Option String
  user : String
  permissions : List String
deriving Repr, DecidableEq

/-- Action `access`: no access check at all; the room is null unless a
PHP-truthy version parameter is given, and a truthy version whose room is
unset (or falsy) is an error.  Never mutates the store. -/
def access (docs : List JDoc) (idp versionp : Option String) (user : String)
    (admin : String → Bool) : Except JErr JAccessResp × List JDoc :=
  if phpFalsyStr idp then (.error .missingId, docs) else
  let docId := idp.getD ""
  match getDocById docs docId with
  | none => (.error .notFound, docs)
  | some doc =>
    let vTruthy := !phpFalsyStr versionp
    let room? : Option String :=
      if vTruthy then (doc.versions.find? fun pr => pr.1 == versionp.getD "").map Prod.snd
      else none
    let roomFalsy := match room? with
      | none => true
      | some r => r == "" || r == "0"
    if vTruthy && roomFalsy then (.error .versionNotFound, docs)
    else (.ok ⟨docId, room?, user, getUserPermissions doc user admin⟩, docs)

/-- Action `get_room`: requires `hasAccess` (403-style "Access denied",
distinct from "Not found"); returns the version's room, generating and
persisting one on the first document with the id when the key is absent. -/
def getRoom (docs : List JDoc) (idp versionp : Option String) (user : String)
    (admin : String → Bool) (pick : Nat → Fin 23) :
    Except JErr SqliteApi.RoomResp × List JDoc :=
  if phpFalsyStr idp || versionp.isNone then (.error .missingParameters, docs) else
  let docId := idp.getD ""
  let ver := versionp.getD ""
  match getDocById docs docId with
  | none => (.error .notFound, docs)
  | some doc =>
    if !(hasAccess doc user admin || admin user) then (.error .accessDenied, docs) else
    match doc.versions.find? (fun pr => pr.1 == ver) with
    | some pr => (.ok ⟨docId, ver, pr.2⟩, docs)
    | none =>
      let room := generateRandomId 16 pick
      (.ok ⟨docId, ver, room⟩,
       replaceFirst (fun d => d.id == docId)
         (fun d => { d with versions := d.versions ++ [(ver, room)] }) docs)

end JsonApi

namespace SqliteApi

/-- The key of a share row, unique per the table's PRIMARY KEY. -/
def shareKey (sh : ShareRow) : String × String := (sh.documentId, sh.username)

/-- At most one share row per (document, username): the share table respects
its PRIMARY KEY. -/
def sharesKeyNodup (s : State) : Prop := (s.shares.map shareKey).Nodup

/-- Every room id is used by at most one version row: the version table
respects its UNIQUE (room_id) constraint. -/
def roomsUnique (s : State) : Prop := (s.versions.map VersionRow.roomId).Nodup

end SqliteApi

theorem find?_append_of_some {α : Type} {p : α → Bool} {l₁ : List α} (l₂ : List α)
    {x : α} (h : l₁.find? p = some x) : (l₁ ++ l₂).find? p = some x := by
  induction l₁ with
  | nil => simp [List.find?] at h
  | cons a l ih =>
    rw [List.cons_append]
    cases hpa : p a with
    | true =>
      rw [List.find?_cons_of_pos _ hpa] at h
      rw [List.find?_cons_of_pos _ hpa]
      exact h
    | false =>
      rw [List.find?_cons_of_neg _ (by simp [hpa])] at h
      rw [List.find?_cons_of_neg _ (by simp [hpa])]
      exact ih h

theorem find?_append_of_none {α : Type} {p : α → Bool} {l₁ : List α} (l₂ : List α)
    (h : l₁.find? p = none) : (l₁ ++ l₂).find? p = l₂.find? p := by
  induction l₁ with
  | nil => simp
  | cons a l ih =>
    rw [List.cons_append]
    cases hpa : p a with
    | true => rw [List.find?_cons_of_pos _ hpa] at h; exact absurd h (by simp)
    | false =>
      rw [List.find?_cons_of_neg _ (by simp [hpa])] at h
      rw [List.find?_cons_of_neg _ (by simp [hpa])]
      exact ih h

theorem find?_filter_of_some {α : Type} {p q : α → Bool} {l : List α} {x : α}
    (hpq : ∀ y, p y = true → q y = true) (h : l.find? p = some x) :
    (l.filter q).find? p = some x := by
  induction l with
  | nil => simp [List.find?] at h
  | cons a l ih =>
    cases hpa : p a with
    | true =>
      rw [List.find?_cons_of_pos _ hpa] at h
      rw [List.filter_cons_of_pos (hpq a hpa), List.find?_cons_of_pos _ hpa]
      exact h
    | false =>
      rw [List.find?_cons_of_neg _ (by simp [hpa])] at h
      cases hqa : q a with
      | true =>
        rw [List.filter_cons_of_pos hqa, List.find?_cons_of_neg _ (by simp [hpa])]
        exact ih h
      | false => rw [List.filter_cons_of_neg (by simp [hqa])]; exact ih h

namespace SqliteApi

/-- Characterization of a successful `create`: every guard passed and the
resulting state appends exactly the new document row and its version row. -/
theorem create_ok_shape {s : State} {idp app title verp : Option String}
    {u : String} {now : Nat} {pick : Nat → Fin 23} {res : Option FullDoc}
    (h : (create s idp app title verp u now pick).1 = .ok res) :
    phpFalsyStr idp = false ∧ validateId (idp.getD "") = true ∧
    validateVersion (verp.getD "1") = true ∧
    (s.documents.any fun d => d.id == idp.getD "") = false ∧
    versionKeyUsed s (idp.getD "") (verp.getD "1") = false ∧
    roomUsed s (generateRandomId 16 pick) = false ∧
    (create s idp app title verp u now pick).2 =
      ⟨s.documents ++
         [⟨idp.getD "", u, app.getD "", title.getD "Untitled", false, now, now⟩],
       s.versions ++ [⟨idp.getD "", verp.getD "1", generateRandomId 16 pick, now⟩],
       s.shares⟩ := by
  by_cases h1 : phpFalsyStr idp = true
  · simp [create, h1] at h
  by_cases h2 : validateId (idp.getD "") = true
  case neg => simp [create, h1, h2] at h
  by_cases h3 : validateVersion (verp.getD "1") = true
  case neg => simp [create, h1, h2, h3] at h
  by_cases h4 : (s.documents.any fun d => d.id == idp.getD "") = true
  · simp [create, h1, h2, h3, h4] at h
  by_cases h5 : versionKeyUsed s (idp.getD "") (verp.getD "1") = true
  · simp [create, h1, h2, h3, h4, h5] at h
  by_cases h6 : roomUsed s (generateRandomId 16 pick) = true
  · simp [create, h1, h2, h3, h4, h5, h6] at h
  refine ⟨by simpa using h1, h2, h3, by simpa using h4, by simpa using h5,
    by simpa using h6, ?_⟩
  simp [create, h1, h2, h3, h4, h5, h6]

/-- A failed `create` leaves the store unchanged. -/
theorem create_error_state {s : State} {idp app title verp : Option String}
    {u : String} {now : Nat} {pick : Nat → Fin 23} {e : ApiErr}
    (h : (create s idp app title verp u now pick).1 = .error e) :
    (create s idp app title verp u now pick).2 = s := by
  by_cases h1 : phpFalsyStr idp = true
  · simp [create, h1]
  by_cases h2 : validateId (idp.getD "") = true
  case neg => simp [create, h1, h2]
  by_cases h3 : validateVersion (verp.getD "1") = true
  case neg => simp [create, h1, h2, h3]
  by_cases h4 : (s.documents.any fun d => d.id == idp.getD "") = true
  · simp [create, h1, h2, h3, h4]
  by_cases h5 : versionKeyUsed s (idp.getD "") (verp.getD "1") = true
  · simp [create, h1, h2, h3, h4, h5]
  by_cases h6 : roomUsed s (generateRandomId 16 pick) = true
  · simp [create, h1, h2, h3, h4, h5, h6]
  simp [create, h1, h2, h3, h4, h5, h6] at h

/-- `create` never touches the share table. -/
theorem create_shares (s : State) (idp app title verp : Option String)
    (u : String) (now : Nat) (pick : Nat → Fin 23) :
    (create s idp app title verp u now pick).2.shares = s.shares := by
  simp only [create]
  repeat' split
  all_goals rfl

/-- `rename` never touches the version table. -/
theorem rename_versions (s : State) (idp title : Option String) (u : String)
    (admin : String → Bool) (now : Nat) :
    (rename s idp title u admin now).2.versions = s.versions := by
  simp only [rename]
  repeat' split
  all_goals rfl

/-- `rename` never touches the share table. -/
theorem rename_shares (s : State) (idp title : Option String) (u : String)
    (admin : String → Bool) (now : Nat) :
    (rename s idp title u admin now).2.shares = s.shares := by
  simp only [rename]
  repeat' split
  all_goals rfl

/-- `share` never touches the version table. -/
theorem share_versions (s : State) (idp username perms : Option String)
    (u : String) (admin : String → Bool) :
    (share s idp username perms u admin).2.versions = s.versions := by
  simp only [share]
  repeat' split
  all_goals rfl

/-- `share` never touches the documents table. -/
theorem share_documents (s : State) (idp username perms : Option String)
    (u : String) (admin : String → Bool) :
    (share s idp username perms u admin).2.documents = s.documents := by
  simp only [share]
  repeat' split
  all_goals rfl

/-- `revoke` never touches the version table. -/
theorem revoke_versions (s : State) (idp username : Option String)
    (u : String) (admin : String → Bool) :
    (revoke s idp username u admin).2.versions = s.versions := by
  simp only [revoke]
  repeat' split
  all_goals rfl

/-- `revoke` never touches the documents table. -/
theorem revoke_documents (s : State) (idp username : Option String)
    (u : String) (admin : String → Bool) :
    (revoke s idp username u admin).2.documents = s.documents := by
  simp only [revoke]
  repeat' split
  all_goals rfl

/-- `revoke` only ever removes share rows (the result filters the table). -/
theorem revoke_shares (s : State) (idp username : Option String)
    (u : String) (admin : String → Bool) :
    (revoke s idp username u admin).2.shares = s.shares ∨
      (revoke s idp username u admin).2.shares =
        s.shares.filter fun sh =>
          !(sh.documentId == idp.getD "" && sh.username == username.getD "") := by
  simp only [revoke]
  repeat' split
  · exact Or.inl rfl
  · exact Or.inl rfl
  · exact Or.inr rfl

/-- `delete` never touches the version table. -/
theorem delete_versions (s : State) (idp : Option String) (u : String)
    (admin : String → Bool) (now : Nat) :
    (delete s idp u admin now).2.versions = s.versions := by
  simp only [delete]
  repeat' split
  all_goals rfl

/-- `delete` never touches the share table. -/
theorem delete_shares (s : State) (idp : Option String) (u : String)
    (admin : String → Bool) (now : Nat) :
    (delete s idp u admin now).2.shares = s.shares := by
  simp only [delete]
  repeat' split
  all_goals rfl

/-- `restore` never touches the version table. -/
theorem restore_versions (s : State) (idp : Option String) (u : String)
    (admin : String → Bool) (now : Nat) :
    (restore s idp u admin now).2.versions = s.versions := by
  simp only [restore]
  repeat' split
  all_goals rfl

/-- `restore` never touches the share table. -/
theorem restore_shares (s : State) (idp : Option String) (u : String)
    (admin : String → Bool) (now : Nat) :
    (restore s idp u admin now).2.shares = s.shares := by
  simp only [restore]
  repeat' split
  all_goals rfl

/-- `create_version` never touches the documents table. -/
theorem createVersion_documents (s : State) (idp verp : Option String)
    (u : String) (admin : String → Bool) (now : Nat) (pick : Nat → Fin 23) :
    (createVersion s idp verp u admin now pick).2.documents = s.documents := by
  simp only [createVersion]
  repeat' split
  all_goals rfl

/-- `create_version` never touches the share table. -/
theorem createVersion_shares (s : State) (idp verp : Option String)
    (u : String) (admin : String → Bool) (now : Nat) (pick : Nat → Fin 23) :
    (createVersion s idp verp u admin now pick).2.shares = s.shares := by
  simp only [createVersion]
  repeat' split
  all_goals rfl

/-- `permanent_delete` either leaves the store unchanged or filters all three
tables on the targeted id. -/
theorem permanentDelete_state (s : State) (idp : Option String) (u : String)
    (admin : String → Bool) :
    (permanentDelete s idp u admin).2 = s ∨
      ((phpFalsyStr idp = false) ∧ (permanentDelete s idp u admin).2 =
        ⟨s.documents.filter (fun d0 => !(d0.id == idp.getD "")),
         s.versions.filter (fun v => !(v.documentId == idp.getD "")),
         s.shares.filter (fun sh => !(sh.documentId == idp.getD ""))⟩) := by
  by_cases h1 : phpFalsyStr idp = true
  · left; simp [permanentDelete, h1]
  cases hf : findDoc s (idp.getD "") with
  | none => left; simp [permanentDelete, h1, hf]
  | some d =>
    by_cases h2 : (d.owner == u || admin u) = true
    · right
      exact ⟨by simpa using h1, by simp [permanentDelete, h1, hf, h2]⟩
    · left; simp [permanentDelete, h1, hf] at h2 ⊢; simp [h2]

/-- Characterization of a successful `create_version`: the guards passed and
the call either returned the existing (PHP-truthy) mapping with the store
unchanged, or appended a freshly generated room to an unmapped version. -/
theorem createVersion_ok_cases {s : State} {idp verp : Option String}
    {u : String} {admin : String → Bool} {now : Nat} {pick : Nat → Fin 23}
    {resp : RoomResp}
    (h : (createVersion s idp verp u admin now pick).1 = .ok resp) :
    phpFalsyStr idp = false ∧ verp.isNone = false ∧
    validateId (idp.getD "") = true ∧ validateVersion (verp.getD "") = true ∧
    hasWriteAccess s (idp.getD "") u admin = true ∧
    resp.id = idp.getD "" ∧ resp.version = verp.getD "" ∧
    ((lookupVersion s (idp.getD "") (verp.getD "") = some resp.room ∧
        (createVersion s idp verp u admin now pick).2 = s) ∨
      (lookupVersion s (idp.getD "") (verp.getD "") = none ∧
        resp.room = generateRandomId 16 pick ∧
        roomUsed s (generateRandomId 16 pick) = false ∧
        (createVersion s idp verp u admin now pick).2 =
          { s with versions := s.versions ++
              [⟨idp.getD "", verp.getD "", generateRandomId 16 pick, now⟩] })) := by
  by_cases h1 : (phpFalsyStr idp || verp.isNone) = true
  · simp [createVersion, h1] at h
  by_cases h2 : validateId (idp.getD "") = true
  case neg => simp [createVersion, h1, h2] at h
  by_cases h3 : validateVersion (verp.getD "") = true
  case neg => simp [createVersion, h1, h2, h3] at h
  by_cases h4 : hasWriteAccess s (idp.getD "") u admin = true
  case neg => simp [createVersion, h1, h2, h3, h4] at h
  simp only [Bool.or_eq_true, not_or] at h1
  refine ⟨Bool.eq_false_iff.mpr h1.1, Bool.eq_false_iff.mpr h1.2, h2, h3, h4, ?_⟩
  cases hlv : lookupVersion s (idp.getD "") (verp.getD "") with
  | some r =>
    by_cases h5 : (r == "" || r == "0") = true
    · simp [createVersion, h1.1, h1.2, h2, h3, h4, hlv, h5] at h
    · have hresp : resp = ⟨idp.getD "", verp.getD "", r⟩ := by
        have h7 := h.symm
        simp [createVersion, h1.1, h1.2, h2, h3, h4, hlv, h5] at h7
        exact h7
      refine ⟨by simp [hresp], by simp [hresp], Or.inl ⟨by simp [hresp], ?_⟩⟩
      simp [createVersion, h1.1, h1.2, h2, h3, h4, hlv, h5]
  | none =>
    by_cases h6 : roomUsed s (generateRandomId 16 pick) = true
    · simp [createVersion, h1.1, h1.2, h2, h3, h4, hlv, h6] at h
    · have hresp : resp = ⟨idp.getD "", verp.getD "", generateRandomId 16 pick⟩ := by
        have h7 := h.symm
        simp [createVersion, h1.1, h1.2, h2, h3, h4, hlv, h6] at h7
        exact h7
      refine ⟨by simp [hresp], by simp [hresp],
        Or.inr ⟨rfl, by simp [hresp], by simpa using h6, ?_⟩⟩
      simp [createVersion, h1.1, h1.2, h2, h3, h4, hlv, h6]

/-- A failed `create_version` leaves the store unchanged. -/
theorem createVersion_error_state {s : State} {idp verp : Option String}
    {u : String} {admin : String → Bool} {now : Nat} {pick : Nat → Fin 23}
    {e : ApiErr}
    (h : (createVersion s idp verp u admin now pick).1 = .error e) :
    (createVersion s idp verp u admin now pick).2 = s := by
  by_cases h1 : (phpFalsyStr idp || verp.isNone) = true
  · simp [createVersion, h1]
  by_cases h2 : validateId (idp.getD "") = true
  case neg => simp [createVersion, h1, h2]
  by_cases h3 : validateVersion (verp.getD "") = true
  case neg => simp [createVersion, h1, h2, h3]
  by_cases h4 : hasWriteAccess s (idp.getD "") u admin = true
  case neg => simp [createVersion, h1, h2, h3, h4]
  simp only [Bool.or_eq_true, not_or] at h1
  cases hlv : lookupVersion s (idp.getD "") (verp.getD "") with
  | some r =>
    by_cases h5 : (r == "" || r == "0") = true
    · simp [createVersion, h1.1, h1.2, h2, h3, h4, hlv, h5]
    · simp [createVersion, h1.1, h1.2, h2, h3, h4, hlv, h5] at h
  | none =>
    by_cases h6 : roomUsed s (generateRandomId 16 pick) = true
    · simp [createVersion, h1.1, h1.2, h2, h3, h4, hlv, h6]
    · simp [createVersion, h1.1, h1.2, h2, h3, h4, hlv, h6] at h

end SqliteApi

/-- C9, counterexample: the generation alphabet
"c d e f h j k m n p r t v w x y 2 3 4 5 6 8 9" contains 23 symbols, not the
"exactly 21" the claim states. -/
theorem c9_counterexample : roomChars.length = 23 ∧ ¬roomChars.length = 21 := by
  decide

/-- C9 (amended): for every length in [1, 128], generateId returns a string of
exactly that many characters, each drawn from the fixed 23-symbol alphabet
(which excludes the visually-ambiguous characters); the rooms minted by both
backends' create and by create_version come from the same `generateRandomId`
with length 16. -/
theorem c9_generate_id_amended :
    (∀ (n : Int) (pick : Nat → Fin 23), 1 ≤ n → n ≤ 128 →
       SqliteApi.generateId (some n) pick =
         .ok (generateRandomId n.toNat pick)) ∧
    (∀ (len : Nat) (pick : Nat → Fin 23),
       (generateRandomId len pick).length = len ∧
         ∀ c ∈ (generateRandomId len pick).data, c ∈ roomChars) ∧
    (∀ (s : SqliteApi.State) (idp app title verp : Option String) (u : String)
       (now : Nat) (pick : Nat → Fin 23) (res : Option SqliteApi.FullDoc),
       (SqliteApi.create s idp app title verp u now pick).1 = .ok res →
         (SqliteApi.create s idp app title verp u now pick).2.versions =
           s.versions ++ [⟨idp.getD "", verp.getD "1", generateRandomId 16 pick, now⟩]) ∧
    (∀ (s : SqliteApi.State) (idp verp : Option String) (u : String)
       (admin : String → Bool) (now : Nat) (pick : Nat → Fin 23)
       (resp : SqliteApi.RoomResp),
       (SqliteApi.createVersion s idp verp u admin now pick).1 = .ok resp →
         SqliteApi.lookupVersion s (idp.getD "") (verp.getD "") = some resp.room ∨
           resp.room = generateRandomId 16 pick) ∧
    (∀ (docs : List JsonApi.JDoc) (idp tool title verp : Option String)
       (u : String) (pick : Nat → Fin 23) (doc : JsonApi.JDoc),
       (JsonApi.create docs idp tool title verp u pick).1 = .ok doc →
         doc.versions = [(verp.getD "1", generateRandomId 16 pick)]) := by
  refine ⟨?_, ?_, ?_, ?_, ?_⟩
  · intro n pick h1 h2
    simp [SqliteApi.generateId]
    omega
  · intro len pick
    constructor
    · simp [generateRandomId, String.length]
    · intro c hc
      simp only [generateRandomId] at hc
      obtain ⟨i, _, rfl⟩ := List.mem_map.mp hc
      rw [List.getD_eq_getElem roomChars 'c' ((pick i).isLt)]
      exact List.getElem_mem _
  · intro s idp app title verp u now pick res h
    have hs := (SqliteApi.create_ok_shape h).2.2.2.2.2.2
    rw [hs]
  · intro s idp verp u admin now pick resp h
    rcases (SqliteApi.createVersion_ok_cases h).2.2.2.2.2.2.2 with hc | hc
    · exact Or.inl hc.1
    · exact Or.inr hc.2.1
  · intro docs idp tool title verp u pick doc h
    by_cases h1 : phpFalsyStr idp = true
    · simp [JsonApi.create, h1] at h
    cases hg : JsonApi.getDocById docs (idp.getD "") with
    | some d0 => simp [JsonApi.create, h1, hg] at h
    | none =>
      have h2 := h.symm
      simp [JsonApi.create, h1, hg] at h2
      rw [h2]

/-- C9 witness: a concrete evaluation of the amended statement, with a length
of 5 and the constant-zero randomness oracle. -/
theorem c9_generate_id_amended_witness :
    SqliteApi.generateId (some 5) (fun _ => (0 : Fin 23)) =
      .ok (generateRandomId 5 (fun _ => (0 : Fin 23))) ∧
    (generateRandomId 5 (fun _ => (0 : Fin 23))).length = 5 := by
  constructor
  · exact c9_generate_id_amended.1 5 (fun _ => (0 : Fin 23)) (by decide) (by decide)
  · exact (c9_generate_id_amended.2.1 5 (fun _ => (0 : Fin 23))).1

/-- C10: a create call that omits the title stores exactly "Untitled", and a
create call that omits the app/tool stores exactly the empty string, in both
backend variants (the SQLite document row and the JSON document object). -/
theorem c10_create_defaults :
    (∀ (s : SqliteApi.State) (idp verp : Option String) (u : String)
       (now : Nat) (pick : Nat → Fin 23) (res : Option SqliteApi.FullDoc),
       (SqliteApi.create s idp none none verp u now pick).1 = .ok res →
         (SqliteApi.create s idp none none verp u now pick).2.documents =
           s.documents ++ [⟨idp.getD "", u, "", "Untitled", false, now, now⟩]) ∧
    (∀ (docs : List JsonApi.JDoc) (idp verp : Option String) (u : String)
       (pick : Nat → Fin 23) (doc : JsonApi.JDoc),
       (JsonApi.create docs idp none none verp u pick).1 = .ok doc →
         doc.title = "Untitled" ∧ doc.tool = "" ∧
           (JsonApi.create docs idp none none verp u pick).2 = docs ++ [doc]) := by
  constructor
  · intro s idp verp u now pick res h
    have hs := (SqliteApi.create_ok_shape h).2.2.2.2.2.2
    rw [hs]
    simp
  · intro docs idp verp u pick doc h
    by_cases h1 : phpFalsyStr idp = true
    · simp [JsonApi.create, h1] at h
    cases hg : JsonApi.getDocById docs (idp.getD "") with
    | some d0 => simp [JsonApi.create, h1, hg] at h
    | none =>
      have h2 := h.symm
      simp [JsonApi.create, h1, hg] at h2
      refine ⟨by rw [h2], by rw [h2], ?_⟩
      simp [JsonApi.create, h1, hg, h2]

/-- C10 witness: creating "doc1" with title and app omitted, in both backends,
from the empty store. -/
theorem c10_create_defaults_witness :
    (SqliteApi.create SqliteApi.State.init (some "doc1") none none none "alice" 7
        (fun _ => (0 : Fin 23))).2.documents =
      [⟨"doc1", "alice", "", "Untitled", false, 7, 7⟩] ∧
    ∀ doc, (JsonApi.create [] (some "doc1") none none none "alice"
        (fun _ => (0 : Fin 23))).1 = .ok doc → doc.title = "Untitled" := by
  constructor
  · exact c10_create_defaults.1 SqliteApi.State.init (some "doc1") none "alice" 7
      (fun _ => (0 : Fin 23))
      (some ⟨⟨"doc1", "alice", "", "Untitled", false, 7, 7⟩,
        [("1", generateRandomId 16 (fun _ => (0 : Fin 23)))], []⟩)
      (by rfl)
  · intro doc h
    exact ((c10_create_defaults.2 [] (some "doc1") none "alice"
      (fun _ => (0 : Fin 23)) doc) h).1

/-- C6: create fails with Conflict whenever a document with the id exists in
any lifecycle state (the existence probe ignores the deleted flag), a failed
create changes nothing, and in particular create followed by soft delete
still leaves a second create of the same id rejected with Conflict. -/
theorem c6_create_conflict_any_state :
    (∀ (s : SqliteApi.State) (idp app title verp : Option String) (u : String)
       (now : Nat) (pick : Nat → Fin 23),
       phpFalsyStr idp = false → validateId (idp.getD "") = true →
       validateVersion (verp.getD "1") = true →
       (∃ d ∈ s.documents, d.id = idp.getD "") →
       SqliteApi.create s idp app title verp u now pick = (.error .conflict, s)) ∧
    (∀ (s : SqliteApi.State) (idp app title verp : Option String) (u : String)
       (now : Nat) (pick : Nat → Fin 23) (e : SqliteApi.ApiErr),
       (SqliteApi.create s idp app title verp u now pick).1 = .error e →
       (SqliteApi.create s idp app title verp u now pick).2 = s) ∧
    (∀ (s : SqliteApi.State) (idp app title verp app2 title2 verp2 : Option String)
       (u u2 : String) (admin : String → Bool) (now now2 now3 : Nat)
       (pick pick2 : Nat → Fin 23) (res : Option SqliteApi.FullDoc),
       (SqliteApi.create s idp app title verp u now pick).1 = .ok res →
       validateVersion (verp2.getD "1") = true →
       (SqliteApi.delete (SqliteApi.create s idp app title verp u now pick).2
          idp u admin now2).1 = .ok () ∧
       (SqliteApi.create
          (SqliteApi.delete (SqliteApi.create s idp app title verp u now pick).2
             idp u admin now2).2
          idp app2 title2 verp2 u2 now3 pick2).1 = .error .conflict) := by
  refine ⟨?_, ?_, ?_⟩
  · intro s idp app title verp u now pick hp hid hv hex
    obtain ⟨d, hd, hdid⟩ := hex
    have hany : (s.documents.any fun d0 => d0.id == idp.getD "") = true :=
      List.any_eq_true.mpr ⟨d, hd, by simp [hdid]⟩
    simp [SqliteApi.create, hp, hid, hv, hany]
  · intro s idp app title verp u now pick e h
    exact SqliteApi.create_error_state h
  · intro s idp app title verp app2 title2 verp2 u u2 admin now now2 now3 pick pick2 res h hv2
    obtain ⟨hp, hid, hv, hany, hkey, hroom, hstate⟩ := SqliteApi.create_ok_shape h
    have hfindnone : s.documents.find? (fun d => d.id == idp.getD "" && !d.deleted) = none := by
      rw [List.find?_eq_none]
      intro d hd
      have hne := (List.any_eq_false.mp hany) d hd
      simp only [Bool.and_eq_true, Bool.not_eq_true', not_and]
      intro hcon
      exact absurd hcon hne
    have howner : SqliteApi.getOwnerLive
        (SqliteApi.create s idp app title verp u now pick).2 (idp.getD "") = some u := by
      rw [hstate]
      show ((s.documents ++
          ([⟨idp.getD "", u, app.getD "", title.getD "Untitled", false, now, now⟩] :
            List SqliteApi.DocRow)).find?
            (fun d => d.id == idp.getD "" && !d.deleted)).map SqliteApi.DocRow.owner = some u
      rw [find?_append_of_none _ hfindnone]
      simp [List.find?]
    have hdel : SqliteApi.delete (SqliteApi.create s idp app title verp u now pick).2
        idp u admin now2 =
        (.ok (), { (SqliteApi.create s idp app title verp u now pick).2 with
          documents := (SqliteApi.create s idp app title verp u now pick).2.documents.map
            fun d => if d.id == idp.getD "" then { d with deleted := true, updatedAt := now2 }
              else d }) := by
      simp [SqliteApi.delete, hp, howner]
    have hmem : (⟨idp.getD "", u, app.getD "", title.getD "Untitled", false, now, now⟩ :
        SqliteApi.DocRow) ∈ (SqliteApi.create s idp app title verp u now pick).2.documents := by
      rw [hstate]
      exact List.mem_append_right _ (List.mem_singleton_self _)
    have hany2 : ((SqliteApi.delete (SqliteApi.create s idp app title verp u now pick).2
        idp u admin now2).2.documents.any fun d => d.id == idp.getD "") = true := by
      rw [hdel]
      apply List.any_eq_true.mpr
      refine ⟨⟨idp.getD "", u, app.getD "", title.getD "Untitled", true, now, now2⟩, ?_, by simp⟩
      refine List.mem_map.mpr
        ⟨⟨idp.getD "", u, app.getD "", title.getD "Untitled", false, now, now⟩, hmem, ?_⟩
      simp
    constructor
    · rw [hdel]
    · generalize hS : (SqliteApi.delete (SqliteApi.create s idp app title verp u now pick).2
        idp u admin now2).2 = S at hany2 ⊢
      simp [SqliteApi.create, hp, hid, hv2, hany2]

/-- C6 witness: an id occupied by a soft-deleted document still collides. -/
theorem c6_create_conflict_any_state_witness :
    SqliteApi.create ⟨[⟨"d", "alice", "", "T", true, 0, 0⟩], [], []⟩ (some "d")
        none none none "bob" 5 (fun _ => (0 : Fin 23)) =
      (.error .conflict, ⟨[⟨"d", "alice", "", "T", true, 0, 0⟩], [], []⟩) :=
  c6_create_conflict_any_state.1 ⟨[⟨"d", "alice", "", "T", true, 0, 0⟩], [], []⟩
    (some "d") none none none "bob" 5 (fun _ => (0 : Fin 23))
    (by decide) (by decide) (by decide)
    ⟨⟨"d", "alice", "", "T", true, 0, 0⟩, List.mem_singleton_self _, rfl⟩

/-- C3, counterexample: in the SQLite variant a caller holding only a write
grant (not owner, not admin) successfully renames the document, instead of
failing with NotFoundOrDenied as the claim requires. -/
theorem c3_counterexample :
    SqliteApi.rename
        ⟨[⟨"d", "alice", "", "T", false, 0, 0⟩], [], [⟨"d", "bob", false, true⟩]⟩
        (some "d") (some "New") "bob" (fun _ => false) 5 =
      (.ok (some ⟨⟨"d", "alice", "", "New", false, 0, 5⟩, [], [("bob", ["write"])]⟩),
       ⟨[⟨"d", "alice", "", "New", false, 0, 5⟩], [], [⟨"d", "bob", false, true⟩]⟩) := by
  rfl

/-- C3 (amended): rename is gated on write access, not on canManage: in the
SQLite variant it fails with the merged denial exactly when the caller lacks
hasWriteAccess (so a write grantee can rename, a read-only grantee cannot),
and in the JSON variant any caller passing hasAccess (any grantee, even
read-only) renames the first matching document. -/
theorem c3_rename_access_amended :
    (∀ (s : SqliteApi.State) (idp titlep : Option String) (u : String)
       (admin : String → Bool) (now : Nat),
       phpFalsyStr idp = false → titlep.isNone = false →
       validateId (idp.getD "") = true →
       SqliteApi.hasWriteAccess s (idp.getD "") u admin = false →
       SqliteApi.rename s idp titlep u admin now = (.error .renameDenied, s)) ∧
    (∀ (s : SqliteApi.State) (idp titlep : Option String) (u : String)
       (admin : String → Bool) (now : Nat),
       phpFalsyStr idp = false → titlep.isNone = false →
       validateId (idp.getD "") = true →
       SqliteApi.hasWriteAccess s (idp.getD "") u admin = true →
       ((SqliteApi.rename s idp titlep u admin now).2.documents =
         s.documents.map fun d => if d.id == idp.getD ""
           then { d with title := titlep.getD "", updatedAt := now } else d) ∧
       (SqliteApi.rename s idp titlep u admin now).1 =
         .ok (SqliteApi.getDocumentFull
           (SqliteApi.rename s idp titlep u admin now).2 (idp.getD ""))) ∧
    (∀ (docs : List JsonApi.JDoc) (idp titlep : Option String) (u : String)
       (admin : String → Bool) (d : JsonApi.JDoc),
       phpFalsyStr idp = false → titlep.isNone = false →
       docs.find? (fun d0 => d0.id == idp.getD "" &&
         (JsonApi.hasAccess d0 u admin || admin u)) = some d →
       (JsonApi.rename docs idp titlep u admin).1 =
         .ok { d with title := titlep.getD "" }) := by
  refine ⟨?_, ?_, ?_⟩
  · intro s idp titlep u admin now hp ht hid hw
    simp [SqliteApi.rename, hp, ht, hid, hw]
  · intro s idp titlep u admin now hp ht hid hw
    constructor
    · simp [SqliteApi.rename, hp, ht, hid, hw]
    · simp [SqliteApi.rename, hp, ht, hid, hw]
  · intro docs idp titlep u admin d hp ht hfind
    simp [JsonApi.rename, hp, ht, hfind]

/-- C3 witness: a read-only grantee is denied by the SQLite rename. -/
theorem c3_rename_access_amended_witness :
    SqliteApi.rename
        ⟨[⟨"d", "alice", "", "T", false, 0, 0⟩], [], [⟨"d", "carol", true, false⟩]⟩
        (some "d") (some "New") "carol" (fun _ => false) 5 =
      (.error .renameDenied,
       ⟨[⟨"d", "alice", "", "T", false, 0, 0⟩], [], [⟨"d", "carol", true, false⟩]⟩) :=
  c3_rename_access_amended.1
    ⟨[⟨"d", "alice", "", "T", false, 0, 0⟩], [], [⟨"d", "carol", true, false⟩]⟩
    (some "d") (some "New") "carol" (fun _ => false) 5
    (by decide) (by decide) (by decide) (by decide)

/-- C4, counterexample: in the SQLite variant, `access` answers 403 "Access
denied" to an unauthorized caller on an existing document but 404 "Not found"
on a missing id, two observably different failures, so the caller learns that
the document exists. -/
theorem c4_counterexample :
    (SqliteApi.access ⟨[⟨"d", "alice", "", "T", false, 0, 0⟩], [⟨"d", "1", "r1", 0⟩], []⟩
        (some "d") (some "1") "bob" (fun _ => false) =
      (.error .accessDenied,
       ⟨[⟨"d", "alice", "", "T", false, 0, 0⟩], [⟨"d", "1", "r1", 0⟩], []⟩)) ∧
    (SqliteApi.access ⟨[⟨"d", "alice", "", "T", false, 0, 0⟩], [⟨"d", "1", "r1", 0⟩], []⟩
        (some "nosuch") (some "1") "bob" (fun _ => false) =
      (.error .notFound,
       ⟨[⟨"d", "alice", "", "T", false, 0, 0⟩], [⟨"d", "1", "r1", 0⟩], []⟩)) ∧
    SqliteApi.observe .accessDenied ≠ SqliteApi.observe .notFound :=
  ⟨by rfl, by rfl, by decide⟩

/-- C4 (amended): `create_version` (getOrCreateRoom) does return one merged
failure — whenever hasWriteAccess is false, whether because the document is
absent, soft-deleted, or the caller lacks permission, the response is the
single 403 "Access denied or not found" with the store unchanged — but
`access` distinguishes a missing document (404 "Not found") from an existing
one the caller may not read (403 "Access denied"). -/
theorem c4_merged_failure_amended :
    (∀ (s : SqliteApi.State) (idp verp : Option String) (u : String)
       (admin : String → Bool) (now : Nat) (pick : Nat → Fin 23),
       phpFalsyStr idp = false → verp.isNone = false →
       validateId (idp.getD "") = true → validateVersion (verp.getD "") = true →
       SqliteApi.hasWriteAccess s (idp.getD "") u admin = false →
       SqliteApi.createVersion s idp verp u admin now pick = (.error .writeDenied, s)) ∧
    (∀ (s : SqliteApi.State) (idp verp : Option String) (u : String)
       (admin : String → Bool),
       phpFalsyStr idp = false → validateId (idp.getD "") = true →
       validateVersion (verp.getD "1") = true →
       (s.documents.find? (fun d => d.id == idp.getD "" && !d.deleted) = none →
         SqliteApi.access s idp verp u admin = (.error .notFound, s)) ∧
       (∀ d, s.documents.find? (fun d0 => d0.id == idp.getD "" && !d0.deleted) = some d →
         admin u = false → (d.owner == u) = false →
         (SqliteApi.lookupShare s (idp.getD "") u).elim false SqliteApi.ShareRow.canRead
           = false →
         SqliteApi.access s idp verp u admin = (.error .accessDenied, s))) := by
  constructor
  · intro s idp verp u admin now pick hp hv hid hvv hw
    simp [SqliteApi.createVersion, hp, hv, hid, hvv, hw]
  · intro s idp verp u admin hp hid hv
    constructor
    · intro hfind
      simp [SqliteApi.access, hp, hid, hv, hfind]
    · intro d hfind hadm howner hread
      simp [SqliteApi.access, hp, hid, hv, hfind, hadm, howner, hread]

/-- C4 witness: the merged create_version failure on a missing document. -/
theorem c4_merged_failure_amended_witness :
    SqliteApi.createVersion SqliteApi.State.init (some "d") (some "1") "bob"
        (fun _ => false) 0 (fun _ => (0 : Fin 23)) =
      (.error .writeDenied, SqliteApi.State.init) :=
  c4_merged_failure_amended.1 SqliteApi.State.init (some "d") (some "1") "bob"
    (fun _ => false) 0 (fun _ => (0 : Fin 23))
    (by decide) (by decide) (by decide) (by decide) (by decide)

/-- C5, counterexample: in the SQLite variant, `access` on an existing
readable document with an unmapped requested version "2" succeeds with a null
room instead of failing NotFound. -/
theorem c5_counterexample :
    SqliteApi.access ⟨[⟨"d", "alice", "", "T", false, 0, 0⟩], [⟨"d", "1", "r1", 0⟩], []⟩
        (some "d") (some "2") "alice" (fun _ => false) =
      (.ok ⟨"d", none, "alice", ["read", "write"]⟩,
       ⟨[⟨"d", "alice", "", "T", false, 0, 0⟩], [⟨"d", "1", "r1", 0⟩], []⟩) := by
  rfl

/-- C5 (amended): `access` never mutates in either variant; in the SQLite
variant an omitted version behaves exactly like version "1" and an unmapped
version yields a successful response whose room is null (never NotFound);
in the JSON variant an omitted version yields a null room (not the room of
version "1") and a PHP-truthy version with no mapping fails with
"Version not found". -/
theorem c5_access_amended :
    (∀ (s : SqliteApi.State) (idp : Option String) (u : String)
       (admin : String → Bool),
       SqliteApi.access s idp none u admin = SqliteApi.access s idp (some "1") u admin) ∧
    (∀ (s : SqliteApi.State) (idp verp : Option String) (u : String)
       (admin : String → Bool) (d : SqliteApi.DocRow),
       phpFalsyStr idp = false → validateId (idp.getD "") = true →
       validateVersion (verp.getD "1") = true →
       s.documents.find? (fun d0 => d0.id == idp.getD "" && !d0.deleted) = some d →
       (!(d.owner == u) && !(admin u) &&
         !((SqliteApi.lookupShare s (idp.getD "") u).elim false
            SqliteApi.ShareRow.canRead)) = false →
       SqliteApi.lookupVersion s (idp.getD "") (verp.getD "1") = none →
       ∃ resp, SqliteApi.access s idp verp u admin = (.ok resp, s) ∧
         resp.room = none) ∧
    (∀ (s : SqliteApi.State) (idp verp : Option String) (u : String)
       (admin : String → Bool),
       (SqliteApi.access s idp verp u admin).2 = s) ∧
    (∀ (docs : List JsonApi.JDoc) (idp : Option String) (u : String)
       (admin : String → Bool) (doc : JsonApi.JDoc),
       phpFalsyStr idp = false →
       JsonApi.getDocById docs (idp.getD "") = some doc →
       JsonApi.access docs idp none u admin =
         (.ok ⟨idp.getD "", none, u, JsonApi.getUserPermissions doc u admin⟩, docs)) ∧
    (∀ (docs : List JsonApi.JDoc) (idp verp : Option String) (u : String)
       (admin : String → Bool) (doc : JsonApi.JDoc),
       phpFalsyStr idp = false → phpFalsyStr verp = false →
       JsonApi.getDocById docs (idp.getD "") = some doc →
       doc.versions.find? (fun pr => pr.1 == verp.getD "") = none →
       JsonApi.access docs idp verp u admin = (.error .versionNotFound, docs)) ∧
    (∀ (docs : List JsonApi.JDoc) (idp verp : Option String) (u : String)
       (admin : String → Bool),
       (JsonApi.access docs idp verp u admin).2 = docs) := by
  refine ⟨?_, ?_, ?_, ?_, ?_, ?_⟩
  · intro s idp u admin
    rfl
  · intro s idp verp u admin d hp hid hv hfind hauth hlv
    refine ⟨⟨idp.getD "", none, u,
      if (d.owner == u || admin u) = true then ["read", "write"]
      else (if (SqliteApi.lookupShare s (idp.getD "") u).elim false
              SqliteApi.ShareRow.canRead then ["read"] else []) ++
           (if (SqliteApi.lookupShare s (idp.getD "") u).elim false
              SqliteApi.ShareRow.canWrite then ["write"] else [])⟩, ?_, rfl⟩
    simp only [SqliteApi.access, hp, Bool.false_eq_true, if_false, hid, Bool.not_true,
      hv, hfind, hlv]
    simp [hauth]
  · intro s idp verp u admin
    simp only [SqliteApi.access]
    repeat' split
    all_goals rfl
  · intro docs idp u admin doc hp hg
    simp [JsonApi.access, hp, hg,
      (show phpFalsyStr (none : Option String) = true from rfl)]
  · intro docs idp verp u admin doc hp hv hg hfind
    simp [JsonApi.access, hp, hv, hg, hfind]
  · intro docs idp verp u admin
    simp only [JsonApi.access]
    repeat' split
    all_goals rfl

/-- C5 witness: the concrete unmapped-version access succeeds with null room
and leaves the concrete store unchanged. -/
theorem c5_access_amended_witness :
    (∃ resp, SqliteApi.access
        ⟨[⟨"d", "alice", "", "T", false, 0, 0⟩], [⟨"d", "1", "r1", 0⟩], []⟩
        (some "d") (some "2") "alice" (fun _ => false) =
      (.ok resp, ⟨[⟨"d", "alice", "", "T", false, 0, 0⟩], [⟨"d", "1", "r1", 0⟩], []⟩) ∧
      resp.room = none) ∧
    SqliteApi.access ⟨[⟨"d", "alice", "", "T", false, 0, 0⟩], [⟨"d", "1", "r1", 0⟩], []⟩
        (some "d") none "alice" (fun _ => false) =
      SqliteApi.access ⟨[⟨"d", "alice", "", "T", false, 0, 0⟩], [⟨"d", "1", "r1", 0⟩], []⟩
        (some "d") (some "1") "alice" (fun _ => false) :=
  ⟨c5_access_amended.2.1 ⟨[⟨"d", "alice", "", "T", false, 0, 0⟩], [⟨"d", "1", "r1", 0⟩], []⟩
      (some "d") (some "2") "alice" (fun _ => false) ⟨"d", "alice", "", "T", false, 0, 0⟩
      (by decide) (by decide) (by decide) (by rfl) (by rfl) (by rfl),
   c5_access_amended.1 ⟨[⟨"d", "alice", "", "T", false, 0, 0⟩], [⟨"d", "1", "r1", 0⟩], []⟩
      (some "d") "alice" (fun _ => false)⟩

namespace SqliteApi

/-- Find the upserted row after the in-place UPDATE branch of the upsert. -/
theorem find?_upsert_map (row : ShareRow) (l : List ShareRow)
    (h : (l.any fun sh => sh.documentId == row.documentId &&
        sh.username == row.username) = true) :
    ((l.map fun sh => if sh.documentId == row.documentId &&
        sh.username == row.username then row else sh).find?
      (fun sh => sh.documentId == row.documentId && sh.username == row.username))
      = some row := by
  induction l with
  | nil => simp at h
  | cons a l ih =>
    by_cases hpa : (a.documentId == row.documentId && a.username == row.username) = true
    · simp only [List.map_cons, hpa, if_true]
      rw [List.find?_cons_of_pos _ (by simp)]
    · have h2 : (l.any fun sh => sh.documentId == row.documentId &&
          sh.username == row.username) = true := by simpa [hpa] using h
      simp only [List.map_cons, hpa, if_false]
      rw [List.find?_cons_of_neg _ (by simp [hpa])]
      exact ih h2

/-- The upsert always leaves exactly the upserted row at its key. -/
theorem lookupShare_upsert (l : List ShareRow) (row : ShareRow) :
    ((upsertShare l row).find?
      (fun sh => sh.documentId == row.documentId && sh.username == row.username))
      = some row := by
  unfold upsertShare
  by_cases hany : (l.any fun sh => sh.documentId == row.documentId &&
      sh.username == row.username) = true
  · rw [if_pos hany]
    exact find?_upsert_map row l hany
  · rw [if_neg hany]
    have hnone : l.find? (fun sh => sh.documentId == row.documentId &&
        sh.username == row.username) = none := by
      rw [List.find?_eq_none]
      intro x hx hpx
      exact hany (List.any_eq_true.mpr ⟨x, hx, hpx⟩)
    rw [find?_append_of_none _ hnone]
    simp [List.find?]

/-- The upsert preserves key uniqueness of the share table. -/
theorem upsert_keys_nodup (l : List ShareRow) (row : ShareRow)
    (h : (l.map shareKey).Nodup) : ((upsertShare l row).map shareKey).Nodup := by
  unfold upsertShare
  by_cases hany : (l.any fun sh => sh.documentId == row.documentId &&
      sh.username == row.username) = true
  · rw [if_pos hany]
    have heq : (l.map fun sh => if sh.documentId == row.documentId &&
        sh.username == row.username then row else sh).map shareKey = l.map shareKey := by
      rw [List.map_map]
      apply List.map_congr_left
      intro x _
      by_cases hpx : (x.documentId == row.documentId && x.username == row.username) = true
      · simp only [Function.comp, hpx, if_true]
        have h1 : x.documentId = row.documentId := by
          have := hpx
          simp only [Bool.and_eq_true, beq_iff_eq] at this
          exact this.1
        have h2 : x.username = row.username := by
          have := hpx
          simp only [Bool.and_eq_true, beq_iff_eq] at this
          exact this.2
        simp [shareKey, h1, h2]
      · simp [Function.comp, hpx]
    rw [heq]
    exact h
  · rw [if_neg hany]
    rw [List.map_append]
    rw [List.nodup_append]
    refine ⟨h, List.nodup_singleton _, ?_⟩
    intro k hk hmem
    simp only [List.map_cons, List.map_nil, List.mem_singleton] at hmem
    subst hmem
    obtain ⟨x, hx, hkx⟩ := List.mem_map.mp hk
    apply hany
    refine List.any_eq_true.mpr ⟨x, hx, ?_⟩
    simp only [shareKey, Prod.mk.injEq] at hkx
    simp [hkx.1, hkx.2]

/-- The state after `share` either keeps the share table or upserts one row. -/
theorem share_shares_or (s : State) (idp username perms : Option String)
    (u : String) (admin : String → Bool) :
    (share s idp username perms u admin).2.shares = s.shares ∨
      ∃ row, (share s idp username perms u admin).2.shares =
        upsertShare s.shares row := by
  simp only [share]
  repeat' split
  all_goals first
    | exact Or.inl rfl
    | exact Or.inr ⟨_, rfl⟩

/-- Every request preserves key uniqueness of the share table. -/
theorem sharesKeyNodup_step (admin : String → Bool) (op : Op) (s : State)
    (h : sharesKeyNodup s) : sharesKeyNodup (stepState admin op s) := by
  cases op with
  | create idp app title version user now pick =>
    show ((create s idp app title version user now pick).2.shares.map shareKey).Nodup
    rw [create_shares]
    exact h
  | rename idp title user now =>
    show ((rename s idp title user admin now).2.shares.map shareKey).Nodup
    rw [rename_shares]
    exact h
  | share idp username perms user =>
    show ((share s idp username perms user admin).2.shares.map shareKey).Nodup
    rcases share_shares_or s idp username perms user admin with heq | ⟨row, heq⟩
    · rw [heq]; exact h
    · rw [heq]; exact upsert_keys_nodup _ _ h
  | revoke idp username user =>
    show ((revoke s idp username user admin).2.shares.map shareKey).Nodup
    rcases revoke_shares s idp username user admin with heq | heq
    · rw [heq]; exact h
    · rw [heq]
      exact h.sublist (List.Sublist.map _ (List.filter_sublist _))
  | delete idp user now =>
    show ((delete s idp user admin now).2.shares.map shareKey).Nodup
    rw [delete_shares]
    exact h
  | restore idp user now =>
    show ((restore s idp user admin now).2.shares.map shareKey).Nodup
    rw [restore_shares]
    exact h
  | permanentDelete idp user =>
    show ((permanentDelete s idp user admin).2.shares.map shareKey).Nodup
    rcases permanentDelete_state s idp user admin with heq | ⟨_, heq⟩
    · rw [heq]; exact h
    · rw [heq]
      exact h.sublist (List.Sublist.map _ (List.filter_sublist _))
  | createVersion idp versionp user now pick =>
    show ((createVersion s idp versionp user admin now pick).2.shares.map shareKey).Nodup
    rw [createVersion_shares]
    exact h

end SqliteApi

/-- C8: re-sharing fully replaces the grant: after share(id,u,"read") then
share(id,u,"write") by a manager, the grant row is exactly canRead = false,
canWrite = true; and every reachable store has at most one grant row per
(document, username). -/
theorem c8_share_upsert_replaces :
    (∀ (s : SqliteApi.State) (id g u : String) (admin : String → Bool),
       phpFalsyStr (some id) = false → validateId id = true →
       SqliteApi.getOwnerLive s id = some u →
       SqliteApi.lookupShare
         (SqliteApi.share (SqliteApi.share s (some id) (some g) (some "read") u admin).2
           (some id) (some g) (some "write") u admin).2 id g =
         some ⟨id, g, false, true⟩) ∧
    (∀ s : SqliteApi.State, SqliteApi.Reachable s → SqliteApi.sharesKeyNodup s) := by
  constructor
  · intro s id g u admin hp hid howner
    have hfk : (s.documents.any fun d => d.id == id) = true := by
      cases hf : s.documents.find? (fun d => d.id == id && !d.deleted) with
      | none => rw [SqliteApi.getOwnerLive, hf] at howner; simp at howner
      | some d =>
        have hdmem := List.mem_of_find?_eq_some hf
        have hdpred := List.find?_some hf
        have hdid : (d.id == id) = true := by
          simp only [Bool.and_eq_true] at hdpred
          exact hdpred.1
        exact List.any_eq_true.mpr ⟨d, hdmem, hdid⟩
    have hperm1 : ((explodeComma "read").find?
        fun p => !(p == "read") && !(p == "write")) = none := by decide
    have hperm2 : ((explodeComma "write").find?
        fun p => !(p == "read") && !(p == "write")) = none := by decide
    have hcr1 : ("read" : String) ∈ explodeComma "read" := by decide
    have hcw1 : ¬(("write" : String) ∈ explodeComma "read") := by decide
    have hcr2 : ¬(("read" : String) ∈ explodeComma "write") := by decide
    have hcw2 : ("write" : String) ∈ explodeComma "write" := by decide
    have hs1 : (SqliteApi.share s (some id) (some g) (some "read") u admin).2.shares =
        SqliteApi.upsertShare s.shares ⟨id, g, true, false⟩ := by
      simp [SqliteApi.share, hp, hid, howner, hfk, hperm1, hcr1, hcw1]
    have hdocs1 : (SqliteApi.share s (some id) (some g) (some "read") u admin).2.documents
        = s.documents := SqliteApi.share_documents s (some id) (some g) (some "read") u admin
    have howner1 : SqliteApi.getOwnerLive
        (SqliteApi.share s (some id) (some g) (some "read") u admin).2 id = some u := by
      rw [SqliteApi.getOwnerLive, hdocs1]
      rw [SqliteApi.getOwnerLive] at howner
      exact howner
    have hfk1 : ((SqliteApi.share s (some id) (some g) (some "read") u admin).2.documents.any
        fun d => d.id == id) = true := by rw [hdocs1]; exact hfk
    have hs2 : (SqliteApi.share
        (SqliteApi.share s (some id) (some g) (some "read") u admin).2
        (some id) (some g) (some "write") u admin).2.shares =
        SqliteApi.upsertShare
          (SqliteApi.share s (some id) (some g) (some "read") u admin).2.shares
          ⟨id, g, false, true⟩ := by
      generalize hS : (SqliteApi.share s (some id) (some g) (some "read") u admin).2 = S
        at howner1 hfk1 ⊢
      simp [SqliteApi.share, hp, hid, howner1, hfk1, hperm2, hcr2, hcw2]
    rw [SqliteApi.lookupShare, hs2]
    exact SqliteApi.lookupShare_upsert _ ⟨id, g, false, true⟩
  · intro s hr
    induction hr with
    | init => simp [SqliteApi.sharesKeyNodup, SqliteApi.State.init]
    | step admin op s0 hr0 ih => exact SqliteApi.sharesKeyNodup_step admin op s0 ih

/-- C8 witness: the owner shares read then write with bob; the final grant is
write-only. -/
theorem c8_share_upsert_replaces_witness :
    SqliteApi.lookupShare
      (SqliteApi.share
        (SqliteApi.share ⟨[⟨"d", "alice", "", "T", false, 0, 0⟩], [], []⟩
          (some "d") (some "bob") (some "read") "alice" (fun _ => false)).2
        (some "d") (some "bob") (some "write") "alice" (fun _ => false)).2 "d" "bob" =
      some ⟨"d", "bob", false, true⟩ :=
  c8_share_upsert_replaces.1 ⟨[⟨"d", "alice", "", "T", false, 0, 0⟩], [], []⟩
    "d" "bob" "alice" (fun _ => false) (by decide) (by decide) (by rfl)

theorem nodup_append_singleton {α : Type} {l : List α} {a : α}
    (h : l.Nodup) (ha : ¬a ∈ l) : (l ++ [a]).Nodup := by
  rw [List.nodup_append]
  refine ⟨h, List.nodup_singleton a, ?_⟩
  intro x hx hmem
  simp only [List.mem_singleton] at hmem
  subst hmem
  exact ha hx

namespace SqliteApi

/-- A room id not used by any version row is absent from the room column. -/
theorem roomUsed_false_not_mem {s : State} {r : String}
    (h : roomUsed s r = false) : ¬r ∈ s.versions.map VersionRow.roomId := by
  intro hmem
  obtain ⟨vr, hvr, hvrr⟩ := List.mem_map.mp hmem
  have : (s.versions.any fun v => v.roomId == r) = true :=
    List.any_eq_true.mpr ⟨vr, hvr, by simp [hvrr]⟩
  rw [roomUsed] at h
  rw [h] at this
  exact Bool.false_ne_true this

/-- Every request preserves uniqueness of the room column. -/
theorem roomsUnique_step (admin : String → Bool) (op : Op) (s : State)
    (h : roomsUnique s) : roomsUnique (stepState admin op s) := by
  cases op with
  | create idp app title version user now pick =>
    show ((create s idp app title version user now pick).2.versions.map
      VersionRow.roomId).Nodup
    cases hc : (create s idp app title version user now pick).1 with
    | error e => rw [create_error_state hc]; exact h
    | ok res =>
      obtain ⟨_, _, _, _, _, hroom, hstate⟩ := create_ok_shape hc
      rw [hstate]
      simp only [List.map_append, List.map_cons, List.map_nil]
      exact nodup_append_singleton h (roomUsed_false_not_mem hroom)
  | rename idp title user now =>
    show ((rename s idp title user admin now).2.versions.map VersionRow.roomId).Nodup
    rw [rename_versions]
    exact h
  | share idp username perms user =>
    show ((share s idp username perms user admin).2.versions.map VersionRow.roomId).Nodup
    rw [share_versions]
    exact h
  | revoke idp username user =>
    show ((revoke s idp username user admin).2.versions.map VersionRow.roomId).Nodup
    rw [revoke_versions]
    exact h
  | delete idp user now =>
    show ((delete s idp user admin now).2.versions.map VersionRow.roomId).Nodup
    rw [delete_versions]
    exact h
  | restore idp user now =>
    show ((restore s idp user admin now).2.versions.map VersionRow.roomId).Nodup
    rw [restore_versions]
    exact h
  | permanentDelete idp user =>
    show ((permanentDelete s idp user admin).2.versions.map VersionRow.roomId).Nodup
    rcases permanentDelete_state s idp user admin with heq | ⟨_, heq⟩
    · rw [heq]; exact h
    · rw [heq]
      exact h.sublist (List.Sublist.map _ (List.filter_sublist _))
  | createVersion idp versionp user now pick =>
    show ((createVersion s idp versionp user admin now pick).2.versions.map
      VersionRow.roomId).Nodup
    cases hc : (createVersion s idp versionp user admin now pick).1 with
    | error e => rw [createVersion_error_state hc]; exact h
    | ok resp =>
      rcases (createVersion_ok_cases hc).2.2.2.2.2.2.2 with ⟨_, hstate⟩ | ⟨_, _, hroom, hstate⟩
      · rw [hstate]; exact h
      · rw [hstate]
        simp only [List.map_append, List.map_cons, List.map_nil]
        exact nodup_append_singleton h (roomUsed_false_not_mem hroom)

end SqliteApi

/-- C2: in every reachable store state, each room value is used by at most
one (document, version) row — including rows of soft-deleted documents, which
stay in the table — because both room-inserting paths abort when the freshly
generated room already exists (the UNIQUE (room_id) constraint). -/
theorem c2_rooms_unique :
    ∀ s : SqliteApi.State, SqliteApi.Reachable s → SqliteApi.roomsUnique s := by
  intro s hr
  induction hr with
  | init => simp [SqliteApi.roomsUnique, SqliteApi.State.init]
  | step admin op s0 hr0 ih => exact SqliteApi.roomsUnique_step admin op s0 ih

/-- C2 witness: the invariant evaluated on the concrete reachable state
obtained by one create request from the empty store. -/
theorem c2_rooms_unique_witness :
    SqliteApi.roomsUnique
      (SqliteApi.stepState (fun _ => false)
        (SqliteApi.Op.create (some "d") none none none "alice" 0 (fun _ => (0 : Fin 23)))
        SqliteApi.State.init) :=
  c2_rooms_unique _
    (SqliteApi.Reachable.step (fun _ => false)
      (SqliteApi.Op.create (some "d") none none none "alice" 0 (fun _ => (0 : Fin 23)))
      SqliteApi.State.init SqliteApi.Reachable.init)

namespace SqliteApi

/-- A successful `create_version` leaves its (document, version) key mapped
to exactly the room it returned. -/
theorem createVersion_ok_lookup {s : State} {idp verp : Option String}
    {u : String} {admin : String → Bool} {now : Nat} {pick : Nat → Fin 23}
    {resp : RoomResp}
    (h : (createVersion s idp verp u admin now pick).1 = .ok resp) :
    lookupVersion (createVersion s idp verp u admin now pick).2
      (idp.getD "") (verp.getD "") = some resp.room := by
  rcases (createVersion_ok_cases h).2.2.2.2.2.2.2 with ⟨hlv, hstate⟩ | ⟨hlv, hroom, _, hstate⟩
  · rw [hstate]; exact hlv
  · rw [hstate]
    have hfnone : s.versions.find? (fun vr => vr.documentId == idp.getD "" &&
        vr.version == verp.getD "") = none := by
      rw [lookupVersion] at hlv
      exact Option.map_eq_none'.mp hlv
    rw [lookupVersion]
    show ((s.versions ++ ([⟨idp.getD "", verp.getD "", generateRandomId 16 pick, now⟩] :
        List VersionRow)).find?
      (fun vr => vr.documentId == idp.getD "" && vr.version == verp.getD "")).map
      VersionRow.roomId = some resp.room
    rw [find?_append_of_none _ hfnone]
    simp [List.find?, hroom]

/-- Any request that is not a `permanent_delete` of this document preserves an
existing (document, version) → room mapping. -/
theorem lookupVersion_preserved (admin : String → Bool) (op : Op) (s : State)
    (id v r : String) (hop : isPermDeleteOf op id = false)
    (h : lookupVersion s id v = some r) :
    lookupVersion (stepState admin op s) id v = some r := by
  have hfind : ∀ t : State, t.versions = s.versions → lookupVersion t id v = some r := by
    intro t ht
    rw [lookupVersion, ht]
    exact h
  obtain ⟨vr, hvr, hvrr⟩ : ∃ vr : VersionRow, s.versions.find? (fun q => q.documentId == id &&
      q.version == v) = some vr ∧ vr.roomId = r := by
    rw [lookupVersion] at h
    cases hf : s.versions.find? (fun q => q.documentId == id && q.version == v) with
    | none => rw [hf] at h; simp at h
    | some vr => rw [hf] at h; exact ⟨vr, rfl, by simpa using h⟩
  have happend : ∀ (row : VersionRow) (t : State),
      t.versions = s.versions ++ [row] → lookupVersion t id v = some r := by
    intro row t ht
    rw [lookupVersion, ht, find?_append_of_some _ hvr]
    simp [hvrr]
  cases op with
  | create idp app title version user now pick =>
    show lookupVersion (create s idp app title version user now pick).2 id v = some r
    cases hc : (create s idp app title version user now pick).1 with
    | error e => exact hfind _ (by rw [create_error_state hc])
    | ok res =>
      obtain ⟨_, _, _, _, _, _, hstate⟩ := create_ok_shape hc
      exact happend _ _ (by rw [hstate])
  | rename idp title user now =>
    exact hfind _ (rename_versions s idp title user admin now)
  | share idp username perms user =>
    exact hfind _ (share_versions s idp username perms user admin)
  | revoke idp username user =>
    exact hfind _ (revoke_versions s idp username user admin)
  | delete idp user now =>
    exact hfind _ (delete_versions s idp user admin now)
  | restore idp user now =>
    exact hfind _ (restore_versions s idp user admin now)
  | permanentDelete idp user =>
    show lookupVersion (permanentDelete s idp user admin).2 id v = some r
    rcases permanentDelete_state s idp user admin with heq | ⟨hpf, heq⟩
    · exact hfind _ (by rw [heq])
    · have hne : ¬idp.getD "" = id := by
        intro hcon
        cases idp with
        | none => simp [phpFalsyStr] at hpf
        | some t =>
          simp only [Option.getD] at hcon
          rw [isPermDeleteOf] at hop
          subst hcon
          simp at hop
      rw [lookupVersion]
      rw [show (permanentDelete s idp user admin).2.versions =
        s.versions.filter (fun q => !(q.documentId == idp.getD "")) from by rw [heq]]
      rw [find?_filter_of_some ?_ hvr]
      · simp [hvrr]
      · intro y hy
        simp only [Bool.and_eq_true, beq_iff_eq] at hy
        have hyb : (y.documentId == idp.getD "") = false := by
          rw [hy.1]
          exact beq_eq_false_iff_ne.mpr fun hc => hne hc.symm
        simp [hyb]
  | createVersion idp versionp user now pick =>
    show lookupVersion (createVersion s idp versionp user admin now pick).2 id v = some r
    cases hc : (createVersion s idp versionp user admin now pick).1 with
    | error e => exact hfind _ (by rw [createVersion_error_state hc])
    | ok resp =>
      rcases (createVersion_ok_cases hc).2.2.2.2.2.2.2 with ⟨_, hstate⟩ | ⟨_, _, _, hstate⟩
      · exact hfind _ (by rw [hstate])
      · exact happend _ _ (by rw [hstate])

/-- An existing mapping survives any request sequence that contains no
`permanent_delete` of the document. -/
theorem lookupVersion_preserved_foldl (admin : String → Bool) (id v r : String) :
    ∀ (ops : List Op) (s : State),
      (∀ op ∈ ops, isPermDeleteOf op id = false) →
      lookupVersion s id v = some r →
      lookupVersion (ops.foldl (fun st op => stepState admin op st) s) id v = some r := by
  intro ops
  induction ops with
  | nil => intro s _ h; exact h
  | cons op ops ih =>
    intro s hops h
    rw [List.foldl_cons]
    exact ih _ (fun q hq => hops q (List.mem_cons_of_mem op hq))
      (lookupVersion_preserved admin op s id v r (hops op (List.mem_cons_self op ops)) h)

end SqliteApi

/-- C1: if (id, version) already has a room, a successful getOrCreateRoom
(create_version) returns exactly that room and leaves the store unchanged;
and across any request sequence without a permanent_delete of the document,
two successful getOrCreateRoom calls return the same room.  In the JSON
variant, get_room likewise returns an existing mapping unchanged. -/
theorem c1_get_or_create_room_immutable :
    (∀ (s : SqliteApi.State) (id v r u : String) (admin : String → Bool)
       (now : Nat) (pick : Nat → Fin 23) (resp : SqliteApi.RoomResp),
       SqliteApi.lookupVersion s id v = some r →
       (SqliteApi.createVersion s (some id) (some v) u admin now pick).1 = .ok resp →
       resp.room = r ∧
         (SqliteApi.createVersion s (some id) (some v) u admin now pick).2 = s) ∧
    (∀ (s : SqliteApi.State) (admin : String → Bool) (id v : String)
       (ops : List SqliteApi.Op) (u1 u2 : String) (n1 n2 : Nat)
       (p1 p2 : Nat → Fin 23) (resp1 resp2 : SqliteApi.RoomResp),
       (SqliteApi.createVersion s (some id) (some v) u1 admin n1 p1).1 = .ok resp1 →
       (∀ op ∈ ops, SqliteApi.isPermDeleteOf op id = false) →
       (SqliteApi.createVersion
          (ops.foldl (fun st op => SqliteApi.stepState admin op st)
            (SqliteApi.createVersion s (some id) (some v) u1 admin n1 p1).2)
          (some id) (some v) u2 admin n2 p2).1 = .ok resp2 →
       resp2.room = resp1.room) ∧
    (∀ (docs : List JsonApi.JDoc) (id v u : String) (admin : String → Bool)
       (pick : Nat → Fin 23) (doc : JsonApi.JDoc) (pr : String × String),
       phpFalsyStr (some id) = false →
       JsonApi.getDocById docs id = some doc →
       (JsonApi.hasAccess doc u admin || admin u) = true →
       doc.versions.find? (fun q => q.1 == v) = some pr →
       JsonApi.getRoom docs (some id) (some v) u admin pick = (.ok ⟨id, v, pr.2⟩, docs)) := by
  refine ⟨?_, ?_, ?_⟩
  · intro s id v r u admin now pick resp hlv hok
    rcases (SqliteApi.createVersion_ok_cases hok).2.2.2.2.2.2.2 with
      ⟨hlv2, hstate⟩ | ⟨hlv2, _, _, _⟩
    · rw [show ((some id).getD "") = id from rfl, show ((some v).getD "") = v from rfl] at hlv2
      rw [hlv] at hlv2
      refine ⟨by simpa using hlv2.symm, hstate⟩
    · rw [show (some id).getD "" = id from rfl, show (some v).getD "" = v from rfl] at hlv2
      rw [hlv] at hlv2
      simp at hlv2
  · intro s admin id v ops u1 u2 n1 n2 p1 p2 resp1 resp2 h1 hops h2
    have hm1 := SqliteApi.createVersion_ok_lookup h1
    have hm2 := SqliteApi.lookupVersion_preserved_foldl admin id v resp1.room ops _ hops hm1
    rcases (SqliteApi.createVersion_ok_cases h2).2.2.2.2.2.2.2 with
      ⟨hlv2, _⟩ | ⟨hlv2, _, _, _⟩
    · rw [show (some id).getD "" = id from rfl, show (some v).getD "" = v from rfl] at hlv2
      rw [hm2] at hlv2
      simpa using hlv2.symm
    · rw [show (some id).getD "" = id from rfl, show (some v).getD "" = v from rfl] at hlv2
      rw [hm2] at hlv2
      simp at hlv2
  · intro docs id v u admin pick doc pr hp hg hacc hfind
    simp [JsonApi.getRoom, hp, hg, hacc, hfind]

/-- C1 witness: a concrete store where ("d", "2") is already mapped to "r2";
the call returns "r2" and changes nothing. -/
theorem c1_get_or_create_room_immutable_witness :
    ∀ resp, (SqliteApi.createVersion
        ⟨[⟨"d", "alice", "", "T", false, 0, 0⟩], [⟨"d", "2", "r2", 0⟩], []⟩
        (some "d") (some "2") "alice" (fun _ => false) 9 (fun _ => (0 : Fin 23))).1 =
      .ok resp →
      resp.room = "r2" ∧
        (SqliteApi.createVersion
          ⟨[⟨"d", "alice", "", "T", false, 0, 0⟩], [⟨"d", "2", "r2", 0⟩], []⟩
          (some "d") (some "2") "alice" (fun _ => false) 9 (fun _ => (0 : Fin 23))).2 =
        ⟨[⟨"d", "alice", "", "T", false, 0, 0⟩], [⟨"d", "2", "r2", 0⟩], []⟩ :=
  fun resp hok =>
    c1_get_or_create_room_immutable.1
      ⟨[⟨"d", "alice", "", "T", false, 0, 0⟩], [⟨"d", "2", "r2", 0⟩], []⟩
      "d" "2" "r2" "alice" (fun _ => false) 9 (fun _ => (0 : Fin 23)) resp (by rfl) hok

theorem find?_key_nodup {α : Type} (key : α → String) {l : List α}
    (hnd : (l.map key).Nodup) {x : α} (hx : x ∈ l) {k : String} (hk : key x = k) :
    l.find? (fun y => key y == k) = some x := by
  induction l with
  | nil => simp at hx
  | cons a l ih =>
    have hnd2 := List.nodup_cons.mp hnd
    by_cases hpa : (key a == k) = true
    · rw [show (a :: l).find? (fun y => key y == k) = some a from
        List.find?_cons_of_pos l hpa]
      rcases List.mem_cons.mp hx with rfl | hxl
      · rfl
      · exfalso
        apply hnd2.1
        have : key a = k := by simpa using hpa
        rw [this, ← hk]
        exact List.mem_map_of_mem key hxl
    · rw [show (a :: l).find? (fun y => key y == k) = l.find? (fun y => key y == k) from
        List.find?_cons_of_neg l (by simp [hpa])]
      rcases List.mem_cons.mp hx with rfl | hxl
      · exact absurd (by simp [hk]) hpa
      · exact ih hnd2.2 hxl

/-- C7: for a document owned by the caller, delete only flips the deleted
flag (and bumps updated_at) on the document row: the version and share tables
are untouched; the document leaves the default list view, and a subsequent
restore brings it back with version and share state identical to before the
deletion. -/
theorem c7_soft_delete_restore_frame :
    ∀ (s : SqliteApi.State) (id u : String) (admin : String → Bool) (now1 now2 : Nat),
      phpFalsyStr (some id) = false →
      (s.documents.map SqliteApi.DocRow.id).Nodup →
      SqliteApi.getOwnerLive s id = some u →
      ∀ s1, s1 = (SqliteApi.delete s (some id) u admin now1).2 →
      ∀ s2, s2 = (SqliteApi.restore s1 (some id) u admin now2).2 →
      (SqliteApi.delete s (some id) u admin now1).1 = .ok () ∧
      s1.versions = s.versions ∧ s1.shares = s.shares ∧
      s1.documents = (s.documents.map fun d => if d.id == id
        then { d with deleted := true, updatedAt := now1 } else d) ∧
      SqliteApi.inDefaultList s1 u admin id = false ∧
      (SqliteApi.restore s1 (some id) u admin now2).1 = .ok () ∧
      s2.versions = s.versions ∧ s2.shares = s.shares ∧
      SqliteApi.inDefaultList s2 u admin id = true ∧
      (SqliteApi.getDocumentFull s2 id).map (fun fd => (fd.versions, fd.sharedWith)) =
        (SqliteApi.getDocumentFull s id).map (fun fd => (fd.versions, fd.sharedWith)) := by
  intro s id u admin now1 now2 hp hnd howner s1 hs1 s2 hs2
  obtain ⟨d0, hf0, hd0own⟩ : ∃ d0 : SqliteApi.DocRow,
      s.documents.find? (fun d => d.id == id && !d.deleted) = some d0 ∧ d0.owner = u := by
    rw [SqliteApi.getOwnerLive] at howner
    cases hf : s.documents.find? (fun d => d.id == id && !d.deleted) with
    | none => rw [hf] at howner; simp at howner
    | some d0 => rw [hf] at howner; exact ⟨d0, rfl, by simpa using howner⟩
  have hd0mem := List.mem_of_find?_eq_some hf0
  have hd0pred := List.find?_some hf0
  have hd0id : d0.id = id := by
    simp only [Bool.and_eq_true, beq_iff_eq] at hd0pred
    exact hd0pred.1
  have hd0del : d0.deleted = false := by
    simp only [Bool.and_eq_true, Bool.not_eq_true'] at hd0pred
    exact hd0pred.2
  have hdelok : SqliteApi.delete s (some id) u admin now1 =
      (.ok (), { s with documents := s.documents.map fun d => if d.id == id
        then { d with deleted := true, updatedAt := now1 } else d }) := by
    simp [SqliteApi.delete, hp, howner]
  have hs1docs : s1.documents = (s.documents.map fun d => if d.id == id
      then { d with deleted := true, updatedAt := now1 } else d) := by
    rw [hs1, hdelok]
  have hs1v : s1.versions = s.versions := by rw [hs1, hdelok]
  have hs1sh : s1.shares = s.shares := by rw [hs1, hdelok]
  have hfind1 : s.documents.find? (fun d => d.id == id) = some d0 :=
    find?_key_nodup SqliteApi.DocRow.id hnd hd0mem hd0id
  have hfinddoc1 : SqliteApi.findDoc s1 id =
      some { d0 with deleted := true, updatedAt := now1 } := by
    simp only [SqliteApi.findDoc]
    rw [hs1docs, List.find?_map]
    have hpf : ((fun d : SqliteApi.DocRow => d.id == id) ∘
        (fun d => if d.id == id then { d with deleted := true, updatedAt := now1 } else d)) =
        fun d : SqliteApi.DocRow => d.id == id := by
      funext d
      by_cases hdi : (d.id == id) = true
      · simp [Function.comp, hdi]
      · simp [Function.comp, hdi]
    rw [hpf, hfind1]
    simp [hd0id]
  have hrestok : SqliteApi.restore s1 (some id) u admin now2 =
      (.ok (), { s1 with documents := s1.documents.map fun d => if d.id == id
        then { d with deleted := false, updatedAt := now2 } else d }) := by
    have hown1 : ({ d0 with deleted := true, updatedAt := now1 } :
        SqliteApi.DocRow).owner = u := hd0own
    simp [SqliteApi.restore, hp, hfinddoc1, hown1]
    intro hcon
    exact absurd hd0own hcon
  have hs2docsA : s2.documents = (s1.documents.map fun d => if d.id == id
      then { d with deleted := false, updatedAt := now2 } else d) := by
    rw [hs2, hrestok]
  have hs2v : s2.versions = s.versions := by rw [hs2, hrestok]; exact hs1v
  have hs2sh : s2.shares = s.shares := by rw [hs2, hrestok]; exact hs1sh
  have hs2docs : s2.documents = (s.documents.map fun d => if d.id == id
      then { d with deleted := false, updatedAt := now2 } else d) := by
    rw [hs2docsA, hs1docs, List.map_map]
    apply List.map_congr_left
    intro d _
    by_cases hdi : (d.id == id) = true
    · simp [Function.comp, hdi]
    · simp [Function.comp, hdi]
  have hfind2 : s2.documents.find? (fun d => d.id == id && !d.deleted) =
      some { d0 with deleted := false, updatedAt := now2 } := by
    rw [hs2docs, List.find?_map]
    have hpf2 : ((fun d : SqliteApi.DocRow => d.id == id && !d.deleted) ∘
        (fun d => if d.id == id then { d with deleted := false, updatedAt := now2 } else d)) =
        fun d : SqliteApi.DocRow => d.id == id := by
      funext d
      by_cases hdi : (d.id == id) = true
      · simp [Function.comp, hdi]
      · simp [Function.comp, hdi]
    rw [hpf2, hfind1]
    simp [hd0id]
  have hfull_s : SqliteApi.getDocumentFull s id = some ⟨d0,
      ((s.versions.filter fun v => v.documentId == id).map fun v => (v.version, v.roomId)),
      ((s.shares.filter fun sh => sh.documentId == id).map fun sh =>
        (sh.username, SqliteApi.permsOfShare sh))⟩ := by
    simp only [SqliteApi.getDocumentFull]
    rw [hf0]
    rfl
  have hfull_s2 : SqliteApi.getDocumentFull s2 id =
      some ⟨{ d0 with deleted := false, updatedAt := now2 },
      ((s.versions.filter fun v => v.documentId == id).map fun v => (v.version, v.roomId)),
      ((s.shares.filter fun sh => sh.documentId == id).map fun sh =>
        (sh.username, SqliteApi.permsOfShare sh))⟩ := by
    simp only [SqliteApi.getDocumentFull]
    rw [hfind2, hs2v, hs2sh]
    rfl
  have hmem2 : ({ d0 with deleted := false, updatedAt := now2 } :
      SqliteApi.DocRow) ∈ s2.documents := by
    rw [hs2docs]
    refine List.mem_map.mpr ⟨d0, hd0mem, ?_⟩
    simp [hd0id]
  have hin2 : SqliteApi.inDefaultList s2 u admin id = true := by
    simp only [SqliteApi.inDefaultList]
    apply List.any_eq_true.mpr
    refine ⟨⟨{ d0 with deleted := false, updatedAt := now2 },
      ((s.versions.filter fun v => v.documentId == id).map fun v => (v.version, v.roomId)),
      ((s.shares.filter fun sh => sh.documentId == id).map fun sh =>
        (sh.username, SqliteApi.permsOfShare sh))⟩, ?_, by simp [hd0id]⟩
    simp only [SqliteApi.listDocs]
    apply List.mem_filterMap.mpr
    refine ⟨{ d0 with deleted := false, updatedAt := now2 }, ?_, ?_⟩
    · apply List.mem_filter.mpr
      refine ⟨hmem2, ?_⟩
      simp [SqliteApi.appFilter, hd0own]
    · show SqliteApi.getDocumentFull s2 ({ d0 with deleted := false, updatedAt := now2 } :
        SqliteApi.DocRow).id = _
      conv_lhs => rw [show ({ d0 with deleted := false, updatedAt := now2 } :
        SqliteApi.DocRow).id = id from hd0id]
      exact hfull_s2
  have hin1 : SqliteApi.inDefaultList s1 u admin id = false := by
    simp only [SqliteApi.inDefaultList]
    apply List.any_eq_false.mpr
    intro fd hfd
    simp only [SqliteApi.listDocs] at hfd
    obtain ⟨drow, hdrow, hfdeq⟩ := List.mem_filterMap.mp hfd
    obtain ⟨hdrowmem, hdrowpred⟩ := List.mem_filter.mp hdrow
    have hnotdel : drow.deleted = false := by
      simp only [Bool.and_eq_true, Bool.not_eq_true'] at hdrowpred
      exact hdrowpred.1.1
    rw [hs1docs] at hdrowmem
    obtain ⟨d', hd'mem, hd'eq⟩ := List.mem_map.mp hdrowmem
    have hd'id : (d'.id == id) = false := by
      by_cases hdi : (d'.id == id) = true
      · exfalso
        rw [← hd'eq] at hnotdel
        simp [hdi] at hnotdel
      · simpa using hdi
    have hdrowid : drow.id = d'.id := by
      rw [← hd'eq]
      simp [hd'id]
    simp only [SqliteApi.getDocumentFull] at hfdeq
    obtain ⟨dd, hddfind, hddeq⟩ := Option.map_eq_some'.mp hfdeq
    have hddpred := List.find?_some hddfind
    have hddid : dd.id = drow.id := by
      simp only [Bool.and_eq_true, beq_iff_eq] at hddpred
      exact hddpred.1
    intro hcon
    have hfddoc : fd.doc = dd := by rw [← hddeq]
    rw [hfddoc, hddid, hdrowid] at hcon
    rw [hcon] at hd'id
    simp at hd'id
  refine ⟨by rw [hdelok], hs1v, hs1sh, hs1docs, hin1, by rw [hrestok],
    hs2v, hs2sh, hin2, ?_⟩
  rw [hfull_s2, hfull_s]
  rfl

/-- C7 witness: a concrete owned document with one version and one share is
soft-deleted and restored; it reappears in the owner's default list. -/
theorem c7_soft_delete_restore_frame_witness :
    (SqliteApi.delete
      ⟨[⟨"d", "alice", "", "T", false, 0, 0⟩], [⟨"d", "1", "r1", 0⟩],
       [⟨"d", "bob", true, false⟩]⟩ (some "d") "alice" (fun _ => false) 5).1 = .ok () ∧
    (SqliteApi.delete
      ⟨[⟨"d", "alice", "", "T", false, 0, 0⟩], [⟨"d", "1", "r1", 0⟩],
       [⟨"d", "bob", true, false⟩]⟩ (some "d") "alice" (fun _ => false) 5).2.versions =
      [⟨"d", "1", "r1", 0⟩] ∧
    SqliteApi.inDefaultList
      (SqliteApi.restore
        (SqliteApi.delete
          ⟨[⟨"d", "alice", "", "T", false, 0, 0⟩], [⟨"d", "1", "r1", 0⟩],
           [⟨"d", "bob", true, false⟩]⟩ (some "d") "alice" (fun _ => false) 5).2
        (some "d") "alice" (fun _ => false) 9).2 "alice" (fun _ => false) "d" = true := by
  have h := c7_soft_delete_restore_frame
    ⟨[⟨"d", "alice", "", "T", false, 0, 0⟩], [⟨"d", "1", "r1", 0⟩],
     [⟨"d", "bob", true, false⟩]⟩ "d" "alice" (fun _ => false) 5 9
    (by decide) (by decide) (by rfl) _ rfl _ rfl
  exact ⟨h.1, h.2.1, h.2.2.2.2.2.2.2.2.1⟩
